import Mathlib

/-!
Verification development for a spaCy-like English tokenizer written in Rust
(`src/main.rs` with rule tables in `src/pattern.rs`).

Modelling conventions, used throughout:

* A Rust `&str` / `String` is modelled as a `List Char` (`Str`).  The source
  mixes byte offsets (regex match positions, slicing) and character offsets
  (token spans); on the character-list model the two coincide, because every
  regex / Aho-Corasick match boundary in the source falls on a character
  boundary.  A single position counter therefore models both the byte and the
  character counters of the source.
* A compiled regex or Aho-Corasick automaton is modelled by its observable
  behaviour: a `find` function `Str → Option Span` (first match) or a
  `find_iter` function `Str → List Span` (all successive non-overlapping
  matches, leftmost first).  The core theorems are proved for arbitrary such
  functions; the concrete English rule set of `src/pattern.rs` is embedded
  further below as executable matcher functions.
* `fancy_regex` returns `Result`-wrapped matches; the source treats `Err` the
  same as "no match" (`if let Ok(..)`), so matchers are modelled as returning
  the match options directly.
* Loops that repeatedly shrink a slice are written with an explicit fuel
  argument equal to the slice length; every loop iteration of the source
  consumes at least one character, so this fuel never runs out on the calls
  the program makes (the 0-fuel branch is unreachable there).
* Rust `sort_by_key` is a stable sort; it is modelled by a stable insertion
  sort `insSortBy`.
-/

set_option maxRecDepth 200000

set_option maxHeartbeats 4000000

/-- Character string, the model of Rust `&str` (see the module comment). -/
abbrev Str := List Char

/-- Shorthand turning a Lean string literal into the `List Char` model. -/
def S (s : String) : Str := s.toList

/-- Half-open span `(start, end)` of a match, in positions of the chunk.
Models the `(usize, usize)` byte spans of `src/main.rs` line 285. -/
abbrev Span := Nat × Nat

/-- A token as produced by `tokenize_chunk`: `(text, start_char_offset,
end_char_offset)` (`src/main.rs` line 97). -/
abbrev Token := Str × Nat × Nat

/-- Stable insertion of `x` into a `le`-sorted list: `x` goes in front of the
first element `y` with `le x y`, so an earlier input element precedes later
ones with an equal key. -/
def insSorted {α : Type} (le : α → α → Bool) (x : α) : List α → List α
  | [] => [x]
  | y :: ys => if le x y then x :: y :: ys else y :: insSorted le x ys

/-- Stable insertion sort; models Rust's stable `sort_by_key`. -/
def insSortBy {α : Type} (le : α → α → Bool) : List α → List α
  | [] => []
  | x :: xs => insSorted le x (insSortBy le xs)

/-- One sub-token of an exception entry.  The source stores each sub-token as
a map from attribute names to strings; every entry built in
`src/pattern.rs` carries the `ORTH` key (surface form) and optionally `NORM`,
so the map is modelled as this structure. -/
structure ExcTok where
  orth : Str
  norm : Option Str
deriving DecidableEq

/-- The exception lookup (`ExceptionMap` of `src/pattern.rs`); modelled as an
association list, since the source only uses keyed `insert` / `get` /
`contains_key` / `remove`, never iteration order. -/
abbrev ExcMap := List (Str × List ExcTok)

/-- Keyed insert with `HashMap::insert` semantics.  The new binding is put
in front and `excGet` returns the first binding of a key, so a later insert
of the same key shadows the earlier one: through `excGet` / `excContains` /
`excRemove` (the only observations the source makes) this is exactly the
replace-or-add behaviour of `HashMap::insert`. -/
def excInsert (m : ExcMap) (k : Str) (v : List ExcTok) : ExcMap :=
  (k, v) :: m

/-- Keyed lookup, the model of `HashMap::get`. -/
def excGet (m : ExcMap) (k : Str) : Option (List ExcTok) :=
  (m.find? (fun p => p.1 == k)).map (fun p => p.2)

/-- The model of `HashMap::contains_key`. -/
def excContains (m : ExcMap) (k : Str) : Bool :=
  (excGet m k).isSome

/-- The model of `HashMap::remove` (the removed value is unused). -/
def excRemove (m : ExcMap) (k : Str) : ExcMap :=
  m.filter (fun p => !(p.1 == k))

/-- Batch insert, for the generation loops of `src/pattern.rs`. -/
def excInsertMany (m : ExcMap) (kvs : List (Str × List ExcTok)) : ExcMap :=
  kvs.foldl (fun m kv => excInsert m kv.1 kv.2) m

/-- Every entry's `ORTH` texts concatenate back to its key.  The source never
checks this (it only compares total lengths, `src/main.rs` line 124); it holds
for the English exception table and is the well-formedness assumption under
which the tiling invariant covers the exception path. -/
def excFaithfulB (m : ExcMap) : Bool :=
  m.all (fun p => (p.2.map ExcTok.orth).flatten == p.1)

/-- The compiled rule bundle (`TokenizerRules`, `src/main.rs` lines 22-30),
with each compiled pattern abstracted to its match behaviour. -/
structure TokenizerRules where
  prefixes : List (Str → Option Span)
  suffixes : List (Str → List Span)
  regexInfixes : List (Str → List Span)
  literalInfixMatcher : Option (Str → List Span)
  tokenMatch : Option (Str → Option Span)
  urlMatch : Option (Str → Option Span)
  exceptions : ExcMap

/-- Guard of the prefix loop (`src/main.rs` line 178): the match starts at the
slice start and its text `slice[start..end]` is non-empty. -/
def checkPref (s : Str) (sp : Span) : Bool :=
  sp.1 == 0 && !((s.take sp.2).drop sp.1).isEmpty

/-- One pass of the prefix pattern scan (`src/main.rs` lines 174-194): the
first pattern in declared order whose first match is anchored at the start
with non-empty text wins; a pattern matching elsewhere is skipped. -/
def findFirstPref : List (Str → Option Span) → Str → Option Span
  | [], _ => none
  | f :: fs, s =>
    match f s with
    | some sp => if checkPref s sp then some sp else findFirstPref fs s
    | none => findFirstPref fs s

/-- The prefix stripping loop (`src/main.rs` lines 171-196).  Returns the
emitted prefix tokens, the remaining slice and the updated absolute position.
`fuel` bounds the iteration count; each round consumes at least one character,
so `fuel = slice length` suffices and the 0-fuel branch is unreachable. -/
def stripPrefs (ps : List (Str → Option Span)) : Nat → Str → Nat → List Token × Str × Nat
  | 0, s, pos => ([], s, pos)
  | fuel + 1, s, pos =>
    if s.isEmpty then ([], s, pos)
    else
      match findFirstPref ps s with
      | none => ([], s, pos)
      | some sp =>
        let text := (s.take sp.2).drop sp.1
        let rest := stripPrefs ps fuel (s.drop sp.2) (pos + text.length)
        ((text, pos, pos + text.length) :: rest.1, rest.2.1, rest.2.2)

/-- Selection of a suffix match (`src/main.rs` line 211): among all of one
pattern's matches, the last (rightmost) one that ends exactly at the slice end
with non-empty text. -/
def pickSuffixMatch (s : Str) (ms : List Span) : Option Span :=
  ms.reverse.find? (fun sp => sp.2 == s.length && !((s.take sp.2).drop sp.1).isEmpty)

/-- One pass of the suffix pattern scan (`src/main.rs` lines 207-220): the
first pattern in declared order with an end-anchored non-empty match wins. -/
def findFirstSuffix : List (Str → List Span) → Str → Option Span
  | [], _ => none
  | g :: gs, s =>
    match pickSuffixMatch s (g s) with
    | some sp => some sp
    | none => findFirstSuffix gs s

/-- The suffix stripping loop (`src/main.rs` lines 205-222).  Returns the
remaining slice and the stripped suffix texts in discovery order (outermost,
i.e. rightmost, first).  Fuel as in `stripPrefs`. -/
def stripSufs (ss : List (Str → List Span)) : Nat → Str → Str × List Str
  | 0, s => (s, [])
  | fuel + 1, s =>
    match findFirstSuffix ss s with
    | none => (s, [])
    | some sp =>
      let text := (s.take sp.2).drop sp.1
      let rest := stripSufs ss fuel (s.take sp.1)
      (rest.1, text :: rest.2)

/-- Candidate infix spans from both sources (`src/main.rs` lines 285-313):
all literal-matcher spans of positive length, then every regex infix
pattern's spans with non-empty match text, in pattern order. -/
def collectSpans (chunk : Str) (litM : Option (Str → List Span))
    (regexInfs : List (Str → List Span)) : List Span :=
  (match litM with
   | some m => (m chunk).filter (fun sp => 0 < sp.2 - sp.1)
   | none => [])
  ++ (regexInfs.map (fun g =>
        (g chunk).filter (fun sp => !((chunk.take sp.2).drop sp.1).isEmpty))).flatten

/-- Sort key of `src/main.rs` line 323: by start position, then by length
descending (`(k.0, Reverse(k.1 - k.0))`). -/
def spanKeyLe (a b : Span) : Bool :=
  decide (a.1 < b.1 ∨ (a.1 = b.1 ∧ b.2 - b.1 ≤ a.2 - a.1))

/-- Sort key of the final re-sort, `src/main.rs` line 341: by start. -/
def startLe (a b : Span) : Bool :=
  decide (a.1 ≤ b.1)

/-- Replace the end of the last accepted span (`filtered_matches[last].1 =
byte_end`, `src/main.rs` line 336).  The empty case cannot be reached: the
sweep only extends after having accepted a first span. -/
def setLastEnd : List Span → Nat → List Span
  | [], _ => []
  | [sp], e => [(sp.1, e)]
  | x :: rest, e => x :: setLastEnd rest e

/-- One step of the overlap sweep (`src/main.rs` lines 327-339), on the state
(accepted spans, end of processed range): accept a candidate starting at or
beyond the boundary, extend the last span when the candidate crosses the
boundary, drop a fully contained candidate. -/
def sweepStep (st : List Span × Nat) (c : Span) : List Span × Nat :=
  if c.1 ≥ st.2 then (st.1 ++ [c], c.2)
  else if c.2 > st.2 then (setLastEnd st.1 c.2, c.2)
  else st

/-- The whole left-to-right overlap sweep, from `current_processed_byte_end
= 0` with no accepted span. -/
def sweep (l : List Span) : List Span :=
  (l.foldl sweepStep ([], 0)).1

/-- Overlap resolution of the infix resolver (`src/main.rs` lines 320-341):
stable sort by `(start, length descending)`, sweep, stable re-sort by start. -/
def resolveSpans (l : List Span) : List Span :=
  insSortBy startLe (sweep (insSortBy spanKeyLe l))

/-- One step of the slicing loop (`src/main.rs` lines 351-361): push the
non-empty gap before the span, then the span's own text. -/
def sliceStep (chunk : Str) (st : List Str × Nat) (sp : Span) : List Str × Nat :=
  let toks :=
    if sp.1 > st.2 then
      let part := (chunk.take sp.1).drop st.2
      if part.isEmpty then st.1 else st.1 ++ [part]
    else st.1
  (toks ++ [(chunk.take sp.2).drop sp.1], sp.2)

/-- Slicing of the residual around the accepted spans, with the trailing
segment (`src/main.rs` lines 348-367). -/
def sliceBySpans (chunk : Str) (fm : List Span) : List Str :=
  let st := fm.foldl (sliceStep chunk) ([], 0)
  if st.2 < chunk.length then
    let fp := chunk.drop st.2
    if fp.isEmpty then st.1 else st.1 ++ [fp]
  else st.1

/-- The infix resolver `simple_infix_tokenize_chunk_internal`
(`src/main.rs` lines 277-378).  In the final fallback the source also tests
`!chunk.is_empty()`, which already holds on that branch. -/
def simpleInfixTokenizeChunkInternal (chunk : Str) (litM : Option (Str → List Span))
    (regexInfs : List (Str → List Span)) : List Str :=
  if chunk.isEmpty then []
  else
    let spans := collectSpans chunk litM regexInfs
    if spans.isEmpty then [chunk]
    else
      let toks := sliceBySpans chunk (resolveSpans spans)
      if toks.isEmpty then [chunk] else toks

/-- Attach running offsets to a list of texts, starting at `pos`; the common
shape of the token-emission loops of `src/main.rs` (exception sub-tokens,
infix parts, re-attached suffixes). -/
def attachTokens (pos : Nat) : List Str → List Token
  | [] => []
  | t :: rest => (t, pos, pos + t.length) :: attachTokens (pos + t.length) rest

/-- The full-span test on an optional single-match rule (`src/main.rs` lines
142-163): the rule exists, matched, and the match covers the whole chunk. -/
def fullSpanMatch : Option (Str → Option Span) → Str → Bool
  | some f, s =>
    match f s with
    | some sp => sp.1 == 0 && sp.2 == s.length
    | none => false
  | none, _ => false

/-- Steps 2-8 of `tokenize_chunk` (`src/main.rs` lines 140-272): whole-token
match, URL match, prefix stripping, suffix stripping, infix splitting,
suffix re-attachment in reverse discovery order, and the whole-chunk
fallback. -/
def tokenizeChunkRest (chunk : Str) (rules : TokenizerRules) (base : Nat) : List Token :=
  if fullSpanMatch rules.tokenMatch chunk then [(chunk, base, base + chunk.length)]
  else if fullSpanMatch rules.urlMatch chunk then [(chunk, base, base + chunk.length)]
  else
    let pres := stripPrefs rules.prefixes chunk.length chunk base
    let sufd := if pres.2.1.isEmpty then (pres.2.1, [])
                else stripSufs rules.suffixes pres.2.1.length pres.2.1
    let parts := if sufd.1.isEmpty then []
                 else simpleInfixTokenizeChunkInternal sufd.1 rules.literalInfixMatcher rules.regexInfixes
    let itoks := attachTokens pres.2.2 parts
    let stoks := attachTokens (pres.2.2 + (parts.map List.length).sum) sufd.2.reverse
    let all := pres.1 ++ itoks ++ stoks
    if all.isEmpty && !chunk.isEmpty then [(chunk, base, base + chunk.length)] else all

/-- `tokenize_chunk` (`src/main.rs` lines 93-273).  The exception branch
emits the entry's `ORTH` sub-tokens with running offsets; if their total
length is the chunk's length they are returned, otherwise they are discarded
(`tokens_with_offsets.clear()`, line 136) and the general path runs on the
unchanged chunk. -/
def tokenizeChunk (chunk : Str) (rules : TokenizerRules) (base : Nat) : List Token :=
  if chunk.isEmpty then []
  else
    match excGet rules.exceptions chunk with
    | some entry =>
      if ((entry.map ExcTok.orth).map List.length).sum = chunk.length then
        attachTokens base (entry.map ExcTok.orth)
      else tokenizeChunkRest chunk rules base
    | none => tokenizeChunkRest chunk rules base

/-- The Unicode `White_Space` code points, the character class of Rust's
`char::is_whitespace` used by `split_whitespace`. -/
def isRustWs (c : Char) : Bool :=
  [9, 10, 11, 12, 13, 32, 0x85, 0xa0, 0x1680, 0x2000, 0x2001, 0x2002, 0x2003,
   0x2004, 0x2005, 0x2006, 0x2007, 0x2008, 0x2009, 0x200a, 0x2028, 0x2029,
   0x202f, 0x205f, 0x3000].contains c.toNat

/-- `str::split_whitespace`: the maximal non-whitespace runs, in order.  Fuel
as in `stripPrefs`; each round consumes at least one character. -/
def splitWsAux : Nat → Str → List Str
  | 0, _ => []
  | fuel + 1, s =>
    let s1 := s.dropWhile isRustWs
    if s1.isEmpty then []
    else (s1.takeWhile (fun c => !isRustWs c)) ::
      splitWsAux fuel (s1.dropWhile (fun c => !isRustWs c))

/-- Whitespace splitting of one sentence. -/
def splitWs (s : Str) : List Str :=
  splitWsAux s.length s

/-- `str::find` for a substring: position of its leftmost occurrence. -/
def findSub (hay pat : Str) : Option Nat :=
  if pat.isPrefixOf hay then some 0
  else
    match hay with
    | [] => none
    | _ :: t => (findSub t pat).map (· + 1)

/-- The chunk-collection loop of `advanced_tokenize_sentence_parallel`
(`src/main.rs` lines 394-413): each whitespace chunk with its character
offset in the sentence, located with `find` on the not yet consumed tail.
On the character-list model the byte and character counters of the source
coincide, so one position counter models both.  The `none` branch models the
source's panic and is unreachable for chunks produced by `splitWs`. -/
def chunksInfoAux (sentence : Str) : Nat → List Str → List (Nat × Str)
  | _, [] => []
  | pos, c :: cs =>
    match findSub (sentence.drop pos) c with
    | none => []
    | some r => (pos + r, c) :: chunksInfoAux sentence (pos + r + c.length) cs

/-- The `chunks_info` vector of `src/main.rs` line 394. -/
def chunksInfo (sentence : Str) : List (Nat × Str) :=
  chunksInfoAux sentence 0 (splitWs sentence)

/-- The tagged per-chunk results of the parallel map (`src/main.rs` lines
418-428): each chunk's relative offset with the texts of its tokens (the
offsets of the triples are dropped there, line 425). -/
def taggedOf (sentence : Str) (rules : TokenizerRules) (base : Nat) : List (Nat × List Str) :=
  (chunksInfo sentence).map
    (fun oc => (oc.1, (tokenizeChunk oc.2 rules (base + oc.1)).map (fun t => t.1)))

/-- Sort key of `src/main.rs` line 432: the chunk's relative offset. -/
def leFst (x y : Nat × List Str) : Bool :=
  decide (x.1 ≤ y.1)

/-- `advanced_tokenize_sentence_parallel` (`src/main.rs` lines 385-452):
collect the tagged per-chunk token texts, sort by the chunk offset tag
(stable, modelling `sort_by_key`), flatten.  Rayon's `collect` is modelled as
the order-preserving map `taggedOf`; the theorem for claim C3 shows the
output is the same for an arbitrary permutation of that collection. -/
def advancedTokenizeSentenceParallel (sentence : Str) (rules : TokenizerRules)
    (base : Nat) : List Str :=
  ((insSortBy leFst (taggedOf sentence rules base)).map (fun t => t.2)).flatten

/-- Sequential reference: tokenize the chunks left to right and concatenate
the token texts. -/
def seqTokenize (sentence : Str) (rules : TokenizerRules) (base : Nat) : List Str :=
  ((chunksInfo sentence).map
    (fun oc => (tokenizeChunk oc.2 rules (base + oc.1)).map (fun t => t.1))).flatten

/-- The tokens of one line with their offsets, as computed by the per-chunk
`tokenize_chunk` calls inside the orchestrator (`src/main.rs` line 422),
before the projection to texts. -/
def lineTokens (sentence : Str) (rules : TokenizerRules) (base : Nat) : List Token :=
  ((chunksInfo sentence).map (fun oc => tokenizeChunk oc.2 rules (base + oc.1))).flatten

/-- The token list chains contiguously from `lo` to exactly `hi`: each token
starts where its predecessor ended, the first at `lo` and the last ending at
`hi`, and each token's span length is its text length. -/
def chainSegB (lo : Nat) : List Token → Nat → Bool
  | [], hi => lo == hi
  | t :: rest, hi => (t.2.1 == lo) && (t.2.2 == lo + t.1.length) && chainSegB t.2.2 rest hi

/-- The token list chains contiguously from `lo` (no constraint on the final
end): each consecutive pair shares its boundary offset. -/
def chainTokB (lo : Nat) : List Token → Bool
  | [] => true
  | t :: rest => (t.2.1 == lo) && (t.2.2 == lo + t.1.length) && chainTokB t.2.2 rest

/-- A rule set with no patterns at all and an empty exception table; the
minimal concrete instance used by witnesses. -/
def trivialRules : TokenizerRules :=
  { prefixes := [], suffixes := [], regexInfixes := [], literalInfixMatcher := none,
    tokenMatch := none, urlMatch := none, exceptions := [] }

/-- Generic left-to-right `find_iter` scan: at each position try the
position matcher; on a match emit its span and continue at its end
(matches are non-overlapping, leftmost first).  Fuel as in `stripPrefs`:
every step advances the position, so `fuel = length` suffices. -/
def scanIterAux (m : Str → Nat → Option Nat) (s : Str) : Nat → Nat → List Span
  | 0, _ => []
  | fuel + 1, i =>
    if i < s.length then
      match m s i with
      | some e => if i < e then (i, e) :: scanIterAux m s fuel e else scanIterAux m s fuel (i + 1)
      | none => scanIterAux m s fuel (i + 1)
    else []

/-- All matches of a position matcher, leftmost first, non-overlapping. -/
def scanIter (m : Str → Nat → Option Nat) (s : Str) : List Span :=
  scanIterAux m s s.length 0

/-- A literal string matching at position `i`. -/
def litAt (lit : Str) (s : Str) (i : Nat) : Option Nat :=
  if !lit.isEmpty && lit.isPrefixOf (s.drop i) then some (i + lit.length) else none

/-- `find_iter` of a literal pattern (an escaped-literal regex). -/
def litIter (lit : Str) : Str → List Span :=
  fun s => scanIter (litAt lit) s

/-- `find` (first match) of a literal pattern. -/
def litFind (lit : Str) (s : Str) : Option Span :=
  (litIter lit s).head?

/-- Ordered alternation of literals at position `i`: the first alternative in
list order that matches wins.  This is both the backtracking-regex semantics
of `(?:a|b|…)` and Aho-Corasick `MatchKind::LeftmostFirst` over a pattern
list. -/
def altsAt (alts : List Str) (s : Str) (i : Nat) : Option Nat :=
  match alts.find? (fun a => !a.isEmpty && a.isPrefixOf (s.drop i)) with
  | some a => some (i + a.length)
  | none => none

/-- `find_iter` of an ordered alternation of literals. -/
def altsIter (alts : List Str) : Str → List Span :=
  fun s => scanIter (altsAt alts) s

/-- Position matcher of the greedy `\.{3,}`: a maximal run of at least three
dots. -/
def dotsAtLeast3At (s : Str) (i : Nat) : Option Nat :=
  let r := ((s.drop i).takeWhile (fun c => c == '.')).length
  if 3 ≤ r then some (i + r) else none

/-- Single-character look-behind `(?<=[class])` at the match position. -/
def prevIs (p : Char → Bool) (s : Str) (i : Nat) : Bool :=
  match i with
  | 0 => false
  | j + 1 =>
    match s[j]? with
    | some c => p c
    | none => false

/-- Two-character look-behind `(?<=[c1][c2])` at the match position. -/
def prev2Is (p q : Char → Bool) (s : Str) (i : Nat) : Bool :=
  match i with
  | 0 => false
  | 1 => false
  | j + 2 =>
    (match s[j]? with | some c => p c | none => false)
    && (match s[j + 1]? with | some c => q c | none => false)

/-- Single-character look-ahead `(?=[class])` after a one-character match at
position `i`. -/
def nextIs (p : Char → Bool) (s : Str) (i : Nat) : Bool :=
  match s[i + 1]? with
  | some c => p c
  | none => false

/-- Position matcher of a one-character class with look-behind and
look-ahead context. -/
def ctxClassAt (lb : Str → Nat → Bool) (cls : Char → Bool) (la : Str → Nat → Bool)
    (s : Str) (i : Nat) : Option Nat :=
  match s[i]? with
  | some c => if lb s i && cls c && la s i then some (i + 1) else none
  | none => none

/-- Context with no constraint. -/
def anyCtx : Str → Nat → Bool :=
  fun _ _ => true

/-- Look-behind plus a literal. -/
def lbLitAt (lb : Str → Nat → Bool) (lit : Str) (s : Str) (i : Nat) : Option Nat :=
  if lb s i then litAt lit s i else none

/-- Look-behind plus an ordered alternation of literals. -/
def lbAltsAt (lb : Str → Nat → Bool) (alts : List Str) (s : Str) (i : Nat) : Option Nat :=
  if lb s i then altsAt alts s i else none

/-- UTF-8 byte length, the `str::len()` used as a sort key by the source. -/
def byteLen (s : Str) : Nat :=
  (s.map Char.utf8Size).sum

/-- Stable sort by byte length descending, the model of
`sort_by_key(|s| Reverse(s.len()))`; the key of each element is computed
once up front, which does not change the result. -/
def sortByByteLenDesc (l : List Str) : List Str :=
  (insSortBy (fun a b => Nat.ble b.1 a.1) (l.map (fun s => (byteLen s, s)))).map
    (fun p => p.2)

/-- Deduplication keeping the first occurrence, the seen-set loop of
`get_english_literal_infix_strings`. -/
def dedupKeepFirst (l : List Str) : List Str :=
  l.foldl (fun acc x => if acc.contains x then acc else acc ++ [x]) []

/-- `EMOTICONS` of `src/pattern.rs` lines 16-26, in source order. -/
def emoticonsList : List Str :=
  [S ":)", S ":-)", S ":))", S ":-))", S ":)))", S ":-)))", S "(:", S "(-:",
   S "=)", S "(=", S ":]", S ":-]", S "[:", S "[-:", S "[=", S "=]",
   S ":o)", S "(o:", S ":\x7d", S ":-\x7d", S "8)", S "8-)", S "(-8",
   S ";)", S ";-)", S "(;", S "(-;", S ":(", S ":-(", S ":((", S ":-((",
   S ":(((", S ":-(((", S "):", S ")-:", S "=(", S ">:(", S ":')",
   S ":'-)", S ":'(", S ":'-(", S ":/", S ":-/", S "=/", S "=|", S ":|",
   S ":-|", S "]=", S "=[", S ":1", S ":P", S ":-P", S ":p", S ":-p",
   S ":O", S ":-O", S ":o", S ":-o", S ":0", S ":-0", S ":()", S ">:o",
   S ":*", S ":-*", S ":3", S ":-3", S "=3", S ":>", S ":->", S ":X",
   S ":-X", S ":x", S ":-x", S ":D", S ":-D", S ";D", S ";-D", S "=D",
   S "xD", S "XD", S "xDD", S "XDD", S "8D", S "8-D", S "^_^", S "^__^",
   S "^___^", S ">.<", S ">.>", S "<.<", S "._.", S ";_;", S "-_-",
   S "-__-", S "v.v", S "V.V", S "v_v", S "V_V", S "o_o", S "o_O",
   S "O_o", S "O_O", S "0_o", S "o_0", S "0_0", S "o.O", S "O.o",
   S "O.O", S "o.o", S "0.0", S "o.0", S "0.o", S "@_@", S "<3",
   S "<33", S "<333", S "</3", S "(^_^)", S "(-_-)", S "(._.)",
   S "(>_<)", S "(*_*)", S "(¬_¬)", S "ಠ_ಠ", S "ಠ︵ಠ", S "(ಠ_ಠ)",
   S "¯\\(ツ)/¯", S "(╯°□°）╯︵┻━┻", S "><(((*>"]

/-- `get_abbreviations_list` of `src/pattern.rs` lines 71-80. -/
def abbreviationsList : List Str :=
  [S "'d", S "a.m.", S "Adm.", S "Bros.", S "co.", S "Co.", S "Corp.",
   S "D.C.", S "Dr.", S "e.g.", S "E.g.", S "E.G.", S "etc.", S "Gen.",
   S "Gov.", S "i.e.", S "I.e.", S "I.E.", S "Inc.", S "Jr.", S "Ltd.",
   S "Md.", S "Messrs.", S "Mo.", S "Mont.", S "Mr.", S "Mrs.", S "Ms.",
   S "p.m.", S "Ph.D.", S "Prof.", S "Rep.", S "Rev.", S "Sen.", S "Sr.",
   S "St.", S "vs.", S "v.s.", S "viz.", S "U.S.", S "U.K.", S "N.Y.",
   S "L.A.", S "Dec.", S "approx."]

/-- The alternatives of `CURRENCY_PATTERN_PART`, in source order. -/
def currencyAlts : List Str :=
  [S "$", S "£", S "€", S "¥", S "฿", S "US$", S "C$", S "A$", S "₽",
   S "﷼", S "₴", S "₠", S "₡", S "₢", S "₣", S "₤", S "₥", S "₦",
   S "₧", S "₨", S "₩", S "₪", S "₫", S "€", S "₭", S "₮", S "₯",
   S "₰", S "₱", S "₲", S "₳", S "₴", S "₵", S "₶", S "₷", S "₸",
   S "₹", S "₺", S "₻", S "₼", S "₽", S "₾", S "₿"]

/-- The alternatives of `UNITS_PATTERN_PART`, in source order. -/
def unitsAlts : List Str :=
  [S "km", S "km²", S "km³", S "m", S "m²", S "m³", S "dm", S "dm²",
   S "dm³", S "cm", S "cm²", S "cm³", S "mm", S "mm²", S "mm³", S "ha",
   S "µm", S "nm", S "yd", S "in", S "ft", S "kg", S "g", S "mg",
   S "µg", S "t", S "lb", S "oz", S "m/s", S "km/h", S "kmh", S "mph",
   S "hPa", S "Pa", S "mbar", S "mb", S "MB", S "kb", S "KB", S "gb",
   S "GB", S "tb", S "TB", S "T", S "G", S "M", S "K", S "%"]

/-- The characters of `CONCAT_QUOTES_CONTENT_STR`. -/
def isQuoteCh (c : Char) : Bool :=
  (S "'\"`‘’“”„»«「」『』（）〔〕【】《》〈〉⟦⟧").contains c

/-- The class `[{alphanum}%²\-+{quotes}]` of the alnum-dot suffix rule. -/
def isAlnumPctQuote (c : Char) : Bool :=
  c.isAlphanum || (S "%²-+").contains c || isQuoteCh c

/-- The class `[+\-*^]` of the digit-operator infix rule. -/
def opCh (c : Char) : Bool :=
  (S "+-*^").contains c

/-- The class `[0-9-]`. -/
def digitOrDashCh (c : Char) : Bool :=
  c.isDigit || c == '-'

/-- The class `[:<>=/]`. -/
def symOpCh (c : Char) : Bool :=
  (S ":<>=/").contains c

/-- The class `[a-z{quotes}]` (look-behind of the lower-dot-upper rule). -/
def lowQuoteCh (c : Char) : Bool :=
  c.isLower || isQuoteCh c

/-- The class `[A-Z{quotes}]`. -/
def upQuoteCh (c : Char) : Bool :=
  c.isUpper || isQuoteCh c

/-- The icon class `[❤⭐👍✔✘]`. -/
def iconCls1 (c : Char) : Bool :=
  (S "❤⭐👍✔✘").contains c

/-- The icon class `[😊😂😍🤔😅]`. -/
def iconCls2 (c : Char) : Bool :=
  (S "😊😂😍🤔😅").contains c

/-- Emoticons sorted by byte length descending (stable), the alternation
order of `EMOTICON_ALTERNATION_REGEX_STR` (`src/pattern.rs` lines 380-388). -/
def sortedEmoticons : List Str :=
  sortByByteLenDesc emoticonsList

/-- Position matcher of `\+(?![0-9])`. -/
def plusNotDigitAt (s : Str) (i : Nat) : Option Nat :=
  match s[i]? with
  | some c =>
    if c == '+' then
      match s[i + 1]? with
      | some d => if d.isDigit then none else some (i + 1)
      | none => some (i + 1)
    else none
  | none => none

/-- `find` of `\+(?![0-9])`. -/
def plusNotDigitFind (s : Str) : Option Span :=
  (scanIter plusNotDigitAt s).head?

/-- The compiled prefix patterns (`get_english_prefix_patterns`,
`src/pattern.rs` lines 395-407), each as its `find` function, in source
order. -/
def englishPrefFinds : List (Str → Option Span) :=
  [litFind (S "§"), litFind (S "%"), litFind (S "="), litFind (S "—"),
   litFind (S "–"), plusNotDigitFind]
  ++ ([S "(", S "[", S "\x7b", S "<", S "\"", S "'", S "`", S "“", S "‘",
       S "‚", S "„", S "«", S "»", S "「", S "」", S "『", S "』", S "（",
       S "〔", S "【", S "《", S "〈", S "⟦", S "$", S "¢", S "£", S "€",
       S "¥", S "֏", S "؋", S "₡", S "₢", S "₣", S "₤", S "₥", S "₦",
       S "₧", S "₨", S "₩", S "₪", S "₫", S "₭", S "₮", S "₯", S "₰",
       S "₱", S "₲", S "₳", S "₴", S "₵", S "₸", S "₺", S "₼", S "₽",
       S "₾", S "₿", S "៛", S "₹", S "#", S "&"].map litFind)

/-- The compiled suffix patterns (`get_english_suffix_patterns`,
`src/pattern.rs` lines 409-450), each as its `find_iter` function, in source
order: the emoticon alternation, the two ellipsis regexes, the three literal
ellipses, the escaped abbreviations, then the common suffixes. -/
def englishSuffixes : List (Str → List Span) :=
  [altsIter sortedEmoticons, scanIter dotsAtLeast3At, litIter (S "..")]
  ++ ([S "…", S "⋯", S "⋮"].map litIter)
  ++ abbreviationsList.map litIter
  ++ ([S ":", S ";", S "!", S "?", S ".", S ",", S ")", S "]", S "\x7d",
       S ">", S "\"", S "'", S "`", S "”", S "’", S "‚", S "„", S "»",
       S "«", S "」", S "「", S "』", S "『", S "）", S "〕", S "】",
       S "》", S "〉", S "⟧", S "'s", S "'S", S "’s", S "’S", S "—",
       S "–"].map litIter)
  ++ [scanIter (lbLitAt (prevIs Char.isDigit) (S "+")),
      scanIter (lbLitAt (prev2Is (fun c => c == '°') (fun c => (S "FfCcKk").contains c)) (S ".")),
      scanIter (lbAltsAt (prevIs Char.isDigit) currencyAlts),
      scanIter (lbAltsAt (prevIs Char.isDigit) unitsAlts),
      scanIter (lbLitAt (prevIs isAlnumPctQuote) (S ".")),
      scanIter (lbLitAt (prev2Is Char.isUpper Char.isUpper) (S "."))]

/-- The compiled regex infix patterns (`get_english_regex_infix_patterns`,
`src/pattern.rs` lines 508-547), each as its `find_iter` function, in source
order. -/
def englishRegexInfixes : List (Str → List Span) :=
  [scanIter dotsAtLeast3At,
   litIter (S ".."),
   scanIter (ctxClassAt (prevIs Char.isDigit) opCh (nextIs digitOrDashCh)),
   scanIter (ctxClassAt (prevIs lowQuoteCh) (fun c => c == '.') (nextIs upQuoteCh)),
   scanIter (ctxClassAt (prevIs Char.isAlpha) (fun c => c == ',') (nextIs Char.isAlpha)),
   altsIter [S "--", S "---", S "——"],
   scanIter (ctxClassAt (prevIs Char.isAlphanum) symOpCh (nextIs Char.isAlpha)),
   scanIter (ctxClassAt (prevIs Char.isAlpha) symOpCh (nextIs Char.isAlphanum)),
   scanIter (ctxClassAt anyCtx iconCls1 anyCtx),
   scanIter (ctxClassAt anyCtx iconCls2 anyCtx),
   litIter (S ":placeholdericon1:"),
   litIter (S "placeholdericon2")]

/-- Emoticons excluded from the literal infix set (`src/pattern.rs` lines
459-460). -/
def excludedEmoticons : List Str :=
  [S "o.o", S "0.0", S "._.", S ":0", S ":1", S ":3"]

/-- `get_english_literal_infix_strings` (`src/pattern.rs` lines 454-505):
filtered emoticons, brackets, simple hyphens, literal ellipses and `: / =`,
sorted by byte length descending (stable) and deduplicated keeping the first
occurrence. -/
def englishLiteralInfixStrings : List Str :=
  dedupKeepFirst (sortByByteLenDesc (
    emoticonsList.filter (fun e => !(excludedEmoticons.contains e))
    ++ [S "(", S ")", S "[", S "]", S "\x7b", S "\x7d", S "<", S ">"]
    ++ [S "-", S "–", S "—", S "~"]
    ++ [S "…", S "⋯", S "⋮"]
    ++ [S ":", S "/", S "="]))

/-- Non-empty all-digits string, the language of `\d+` (ASCII digits; the
source's patterns use the explicit class `[0-9]` or `\d` on ASCII input). -/
def isDigitStr1 (s : Str) : Bool :=
  !s.isEmpty && s.all Char.isDigit

/-- Split at every occurrence of a character, keeping empty segments, as
Rust `str::split` does; used to decide membership in number / dotted-name
languages whose separators cannot occur inside the segments. -/
def splitOnChar (c : Char) : Str → List Str
  | [] => [[]]
  | x :: rest =>
    if x == c then [] :: splitOnChar c rest
    else
      match splitOnChar c rest with
      | h :: t => (x :: h) :: t
      | [] => [[x]]

/-- The language of `\d{1,3}(?:,\d{3})*`. -/
def groupedIntB (s : Str) : Bool :=
  match splitOnChar ',' s with
  | [] => false
  | h :: t =>
    (decide (1 ≤ h.length) && decide (h.length ≤ 3) && h.all Char.isDigit)
    && t.all (fun g => g.length == 3 && g.all Char.isDigit)

/-- The language of `[0-9]{1,3}(?:,[0-9]{3})*(?:\.[0-9]{2})?`. -/
def numGroupedOptFrac2 (s : Str) : Bool :=
  match splitOnChar '.' s with
  | [a] => groupedIntB a
  | [a, b] => groupedIntB a && b.length == 2 && b.all Char.isDigit
  | _ => false

/-- The language of `[0-9]+(?:\.[0-9]{2})?`. -/
def numPlainOptFrac2 (s : Str) : Bool :=
  match splitOnChar '.' s with
  | [a] => isDigitStr1 a
  | [a, b] => isDigitStr1 a && b.length == 2 && b.all Char.isDigit
  | _ => false

/-- The language of `\d+\.\d{2}`. -/
def numDotDD (s : Str) : Bool :=
  match splitOnChar '.' s with
  | [a, b] => isDigitStr1 a && b.length == 2 && b.all Char.isDigit
  | _ => false

/-- The language of `\d{1,3}(?:,\d{3})*(?:\.\d+)?`. -/
def numGroupedOptFracN (s : Str) : Bool :=
  match splitOnChar '.' s with
  | [a] => groupedIntB a
  | [a, b] => groupedIntB a && isDigitStr1 b
  | _ => false

/-- The language of `\d+\.\d+`. -/
def numDotN (s : Str) : Bool :=
  match splitOnChar '.' s with
  | [a, b] => isDigitStr1 a && isDigitStr1 b
  | _ => false

/-- The language of `\.\d+`. -/
def numLeadingDot (s : Str) : Bool :=
  match s with
  | c :: rest => c == '.' && isDigitStr1 rest
  | [] => false

/-- The two readings of an optional leading sign `[+-]?`: keep the string,
or strip a leading `+` or `-`. -/
def afterOptSign (s : Str) : List Str :=
  s :: (match s with
    | c :: t => if c == '+' || c == '-' then [t] else []
    | [] => [])

/-- The language of `&(?:amp|lt|gt|quot|apos);`. -/
def htmlEntityB (s : Str) : Bool :=
  match s with
  | c :: rest => c == '&' && ([S "amp;", S "lt;", S "gt;", S "quot;", S "apos;"].contains rest)
  | [] => false

/-- Whole-string membership in the token-match alternation
(`get_english_token_match_pattern_str`, `src/pattern.rs` lines 550-595).
The pattern is `^(?:…)$`, so its `find` result is exactly a full-span match
when the string is in the union of the alternatives' languages. -/
def tokenFullB (s : Str) : Bool :=
  currencyAlts.any (fun c => c.isPrefixOf s && numGroupedOptFrac2 (s.drop c.length))
  || currencyAlts.any (fun c => c.isPrefixOf s && numPlainOptFrac2 (s.drop c.length))
  || (afterOptSign s).any numDotDD
  || (afterOptSign s).any numGroupedOptFracN
  || (afterOptSign s).any numDotN
  || (afterOptSign s).any numLeadingDot
  || (afterOptSign s).any isDigitStr1
  || (decide (3 ≤ s.length) && s.all (fun c => c == '.'))
  || s == S ".."
  || [S "…", S "⋯", S "⋮"].contains s
  || s == S "%"
  || [S "°", S "º", S "ª"].contains s
  || htmlEntityB s
  || [S "®", S "©", S "™", S "℠"].contains s
  || abbreviationsList.contains s
  || emoticonsList.contains s
  || (s.length == 1 && (match s[0]? with | some c => iconCls1 c || iconCls2 c | none => false))
  || s == S ":placeholdericon1:"
  || s == S "placeholdericon2"

/-- The `find` behaviour of the compiled token-match regex: anchored on both
sides, so the only possible match is the full span. -/
def englishTokenMatcher (s : Str) : Option Span :=
  if tokenFullB s then some (0, s.length) else none

/-- The regex word class `\w`, on the ASCII range (every chunk this
development evaluates against the URL rule is ASCII). -/
def wordCharB (c : Char) : Bool :=
  c.isAlphanum || c == '_'

/-- The scheme class `[\w+\-.]`. -/
def schemeCharB (c : Char) : Bool :=
  wordCharB c || c == '+' || c == '-' || c == '.'

/-- The host class `[A-Za-z0-9¡-￿]`. -/
def uriHostCharB (c : Char) : Bool :=
  c.isAlphanum || (decide (0xa1 ≤ c.toNat) && decide (c.toNat ≤ 0xffff))

/-- The host class `[A-Za-z0-9¡-￿_-]`. -/
def uriHostMidCharB (c : Char) : Bool :=
  uriHostCharB c || c == '_' || c == '-'

/-- One dot-terminated domain label without its dot:
`(?:[A-Za-z0-9¡-￿][A-Za-z0-9¡-￿_-]{0,62})?[A-Za-z0-9¡-￿]`. -/
def labelValidB (l : Str) : Bool :=
  match l with
  | [] => false
  | [c] => uriHostCharB c
  | c :: rest =>
    uriHostCharB c && decide (rest.length ≤ 63)
    && rest.dropLast.all uriHostMidCharB
    && (match rest.getLast? with | some d => uriHostCharB d | none => false)

/-- The top-level-domain language `[a-z]{2,63}`. -/
def tldValidB (t : Str) : Bool :=
  decide (2 ≤ t.length) && decide (t.length ≤ 63) && t.all Char.isLower

/-- Whole-string membership in the domain-host language (labels are the
dot-separated segments, since the label classes exclude the dot). -/
def domainFullB (h : Str) : Bool :=
  match splitOnChar '.' h with
  | [] => false
  | [_] => false
  | parts =>
    !parts.dropLast.isEmpty
    && parts.dropLast.all labelValidB
    && (match parts.getLast? with | some t => tldValidB t | none => false)

/-- The first IP quad `[1-9]\d?|1\d\d|2[01]\d|22[0-3]`. -/
def ipQ1B (q : Str) : Bool :=
  match q with
  | [a] => decide ('1' ≤ a) && decide (a ≤ '9')
  | [a, b] => decide ('1' ≤ a) && decide (a ≤ '9') && b.isDigit
  | [a, b, c] =>
    (a == '1' && b.isDigit && c.isDigit)
    || (a == '2' && (b == '0' || b == '1') && c.isDigit)
    || (a == '2' && b == '2' && decide ('0' ≤ c) && decide (c ≤ '3'))
  | _ => false

/-- A middle IP quad `1?\d{1,2}|2[0-4]\d|25[0-5]`. -/
def ipQ2B (q : Str) : Bool :=
  match q with
  | [a] => a.isDigit
  | [a, b] => a.isDigit && b.isDigit
  | [a, b, c] =>
    (a == '1' && b.isDigit && c.isDigit)
    || (a == '2' && decide ('0' ≤ b) && decide (b ≤ '4') && c.isDigit)
    || (a == '2' && b == '5' && decide ('0' ≤ c) && decide (c ≤ '5'))
  | _ => false

/-- The last IP quad `[1-9]\d?|1\d\d|2[0-4]\d|25[0-4]`. -/
def ipQ4B (q : Str) : Bool :=
  match q with
  | [a] => decide ('1' ≤ a) && decide (a ≤ '9')
  | [a, b] => decide ('1' ≤ a) && decide (a ≤ '9') && b.isDigit
  | [a, b, c] =>
    (a == '1' && b.isDigit && c.isDigit)
    || (a == '2' && decide ('0' ≤ b) && decide (b ≤ '4') && c.isDigit)
    || (a == '2' && b == '5' && decide ('0' ≤ c) && decide (c ≤ '4'))
  | _ => false

/-- Whole-string membership in the IP-host language. -/
def ipSyntaxB (h : Str) : Bool :=
  match splitOnChar '.' h with
  | [q1, q2, q3, q4] => ipQ1B q1 && ipQ2B q2 && ipQ2B q3 && ipQ4B q4
  | _ => false

/-- Prefix match of `(?:\.\d{1,3}){k}` (with backtracking over the group
widths, hence the disjunction over 1-3 digits). -/
def dotGroupPrefixB : Nat → Str → Bool
  | 0, _ => true
  | k + 1, s =>
    match s with
    | c :: rest =>
      c == '.' && ([1, 2, 3].any (fun j =>
        decide (j ≤ rest.length) && (rest.take j).all Char.isDigit
        && dotGroupPrefixB k (rest.drop j)))
    | [] => false

/-- The negative look-ahead body `(?:10|127)(?:\.\d{1,3}){3}` as a prefix
match at the host position. -/
def la10or127B (s : Str) : Bool :=
  ((S "10").isPrefixOf s && dotGroupPrefixB 3 (s.drop 2))
  || ((S "127").isPrefixOf s && dotGroupPrefixB 3 (s.drop 3))

/-- The look-ahead body `(?:169\.254|192\.168)(?:\.\d{1,3}){2}`. -/
def la169or192B (s : Str) : Bool :=
  ((S "169.254").isPrefixOf s && dotGroupPrefixB 2 (s.drop 7))
  || ((S "192.168").isPrefixOf s && dotGroupPrefixB 2 (s.drop 7))

/-- The look-ahead body `172\.(?:1[6-9]|2\d|3[0-1])(?:\.\d{1,3}){2}`. -/
def la172B (s : Str) : Bool :=
  (S "172.").isPrefixOf s
  && (match s.drop 4 with
      | a :: b :: rest =>
        ((a == '1' && decide ('6' ≤ b) && decide (b ≤ '9'))
         || (a == '2' && b.isDigit)
         || (a == '3' && (b == '0' || b == '1')))
        && dotGroupPrefixB 2 rest
      | _ => false)

/-- The optional path `(?:[/?#]\S*)?` consuming the whole remainder. -/
def pathOkB (e : Str) : Bool :=
  match e with
  | [] => true
  | c :: rest => (c == '/' || c == '?' || c == '#') && rest.all (fun d => !isRustWs d)

/-- The remainders left after the optional port `(?::\d{2,5})?`. -/
def portSplits (r : Str) : List Str :=
  r :: (match r with
    | c :: rest =>
      if c == ':' then
        [2, 3, 4, 5].filterMap (fun j =>
          if decide (j ≤ rest.length) && (rest.take j).all Char.isDigit
          then some (rest.drop j) else none)
      else []
    | [] => [])

/-- Port then path consume the whole remainder. -/
def portPathOkB (r : Str) : Bool :=
  (portSplits r).any pathOkB

/-- Host (domain or non-private IP) followed by optional port and path; the
negative look-aheads of the IP branch test a prefix of the whole remainder
from the host position, as in the pattern. -/
def hostRestOkB (r : Str) : Bool :=
  (List.range (r.length + 1)).any (fun i =>
    (domainFullB (r.take i)
     || (ipSyntaxB (r.take i) && !la10or127B r && !la169or192B r && !la172B r))
    && portPathOkB (r.drop i))

/-- The remainders left after the optional scheme `(?:[\w+\-.]{2,}://)?`
(the alternatives: no scheme, or any `://` occurrence preceded by at least
two scheme-class characters). -/
def schemeSplits (s : Str) : List Str :=
  s :: (List.range s.length).filterMap (fun i =>
    if decide (2 ≤ i) && (s.take i).all schemeCharB && (S "://").isPrefixOf (s.drop i)
    then some (s.drop (i + 3)) else none)

/-- The remainders left after the optional userinfo `(?:\S+(?::\S*)?@)?`;
as a language the userinfo body is any non-empty whitespace-free string. -/
def userSplits (t : Str) : List Str :=
  t :: (List.range t.length).filterMap (fun i =>
    if decide (1 ≤ i) && (t.take i).all (fun c => !isRustWs c) && t[i]? == some '@'
    then some (t.drop (i + 1)) else none)

/-- Whole-string membership in the URL language
(`get_english_url_match_pattern_str`, `src/pattern.rs` lines 597-626). -/
def urlFullB (s : Str) : Bool :=
  (schemeSplits s).any (fun s1 => (userSplits s1).any hostRestOkB)

/-- The `find` behaviour of the compiled URL regex: anchored on both sides,
so the only possible match is the full span. -/
def englishUrlMatcher (s : Str) : Option Span :=
  if urlFullB s then some (0, s.length) else none

/-- An exception sub-token with only `ORTH`. -/
def tk (o : Str) : ExcTok :=
  ⟨o, none⟩

/-- An exception sub-token with `ORTH` and `NORM`. -/
def tkn (o n : Str) : ExcTok :=
  ⟨o, some n⟩

/-- `capitalize` of `src/pattern.rs` lines 29-35; the single-character
uppercase mapping suffices for the ASCII words it is applied to. -/
def capitalizeStr (s : Str) : Str :=
  match s with
  | [] => []
  | c :: rest => c.toUpper :: rest

/-- The two orth cases `[word, capitalize(word)]` iterated by the generation
loops. -/
def orthCases (p : Str) : List Str :=
  [p, capitalizeStr p]

/-- The `i'm / im / i'ma / ima` block (`src/pattern.rs` lines 89-122). -/
def excBlockIm : List (Str × List ExcTok) :=
  (([S "i"].map (fun p => (orthCases p).map (fun o =>
    [(o ++ S "'m", [tkn o p, tkn (S "'m") (S "am")]),
     (o ++ S "m", [tkn o p, tk (S "m")]),
     (o ++ S "'ma", [tkn o p, tkn (S "'m") (S "am"), tkn (S "a") (S "gonna")]),
     (o ++ S "ma", [tkn o p, tkn (S "m") (S "am"), tkn (S "a") (S "gonna")])]))).flatten).flatten

/-- The `'ll / 'd` pronoun block (`src/pattern.rs` lines 124-135). -/
def excBlockLl : List (Str × List ExcTok) :=
  (([S "i", S "you", S "he", S "she", S "it", S "we", S "they"].map (fun p =>
    (orthCases p).map (fun o =>
      [(o ++ S "'ll", [tkn o p, tkn (S "'ll") (S "will")]),
       (o ++ S "ll", [tkn o p, tkn (S "ll") (S "will")]),
       (o ++ S "'ll've", [tkn o p, tkn (S "'ll") (S "will"), tkn (S "'ve") (S "have")]),
       (o ++ S "llve", [tkn o p, tkn (S "ll") (S "will"), tkn (S "ve") (S "have")]),
       (o ++ S "'d", [tkn o p, tkn (S "'d") (S "'d")]),
       (o ++ S "d", [tkn o p, tkn (S "d") (S "'d")]),
       (o ++ S "'d've", [tkn o p, tkn (S "'d") (S "would"), tkn (S "'ve") (S "have")]),
       (o ++ S "dve", [tkn o p, tkn (S "d") (S "would"), tkn (S "ve") (S "have")])]))).flatten).flatten

/-- The `'ve` pronoun block (`src/pattern.rs` lines 137-142). -/
def excBlockVe : List (Str × List ExcTok) :=
  (([S "i", S "you", S "we", S "they"].map (fun p => (orthCases p).map (fun o =>
    [(o ++ S "'ve", [tkn o p, tkn (S "'ve") (S "have")]),
     (o ++ S "ve", [tkn o p, tkn (S "ve") (S "have")])]))).flatten).flatten

/-- The `'re` pronoun block (`src/pattern.rs` lines 144-149). -/
def excBlockRe : List (Str × List ExcTok) :=
  (([S "you", S "we", S "they"].map (fun p => (orthCases p).map (fun o =>
    [(o ++ S "'re", [tkn o p, tkn (S "'re") (S "are")]),
     (o ++ S "re", [tkn o p, tkn (S "re") (S "are")])]))).flatten).flatten

/-- The `'s` pronoun block (`src/pattern.rs` lines 151-156). -/
def excBlockPronS : List (Str × List ExcTok) :=
  (([S "he", S "she", S "it"].map (fun p => (orthCases p).map (fun o =>
    [(o ++ S "'s", [tkn o p, tkn (S "'s") (S "'s")]),
     (o ++ S "s", [tkn o p, tk (S "s")])]))).flatten).flatten

/-- The w-word data with its morph tag (`src/pattern.rs` lines 158-163):
0 = no tag, 1 = singular, 2 = plural. -/
def wWordsData : List (Str × Nat) :=
  [(S "who", 0), (S "what", 0), (S "when", 0), (S "where", 0), (S "why", 0),
   (S "how", 0), (S "there", 0), (S "that", 1), (S "this", 1),
   (S "these", 2), (S "those", 2)]

/-- The w-word block (`src/pattern.rs` lines 164-185): `'s/s` unless plural,
always `'ll`-family, `'re/'ve`-family unless singular, always `'d`-family. -/
def excBlockW : List (Str × List ExcTok) :=
  ((wWordsData.map (fun wm => (orthCases wm.1).map (fun o =>
    (if wm.2 = 2 then [] else
      [(o ++ S "'s", [tkn o wm.1, tkn (S "'s") (S "'s")]),
       (o ++ S "s", [tkn o wm.1, tk (S "s")])])
    ++ [(o ++ S "'ll", [tkn o wm.1, tkn (S "'ll") (S "will")]),
        (o ++ S "ll", [tkn o wm.1, tkn (S "ll") (S "will")]),
        (o ++ S "'ll've", [tkn o wm.1, tkn (S "'ll") (S "will"), tkn (S "'ve") (S "have")]),
        (o ++ S "llve", [tkn o wm.1, tkn (S "ll") (S "will"), tkn (S "ve") (S "have")])]
    ++ (if wm.2 = 1 then [] else
      [(o ++ S "'re", [tkn o wm.1, tkn (S "'re") (S "are")]),
       (o ++ S "re", [tkn o wm.1, tkn (S "re") (S "are")]),
       (o ++ S "'ve", [tkn o wm.1, tkn (S "'ve") (S "have")]),
       (o ++ S "ve", [tkn o wm.1, tkn (S "ve") (S "have")])])
    ++ [(o ++ S "'d", [tkn o wm.1, tkn (S "'d") (S "'d")]),
        (o ++ S "d", [tkn o wm.1, tkn (S "d") (S "'d")]),
        (o ++ S "'d've", [tkn o wm.1, tkn (S "'d") (S "would"), tkn (S "'ve") (S "have")]),
        (o ++ S "dve", [tkn o wm.1, tkn (S "d") (S "would"), tkn (S "ve") (S "have")])]))).flatten).flatten

/-- `verbs_data_list1` (`src/pattern.rs` lines 187-193). -/
def verbs1Data : List (Str × Str) :=
  [(S "ca", S "can"), (S "could", S "could"), (S "do", S "do"),
   (S "does", S "does"), (S "did", S "do"), (S "had", S "have"),
   (S "may", S "may"), (S "might", S "might"), (S "must", S "must"),
   (S "need", S "need"), (S "ought", S "ought"), (S "sha", S "shall"),
   (S "should", S "should"), (S "wo", S "will"), (S "would", S "would")]

/-- The `n't`-family verb block (`src/pattern.rs` lines 194-207). -/
def excBlockV1 : List (Str × List ExcTok) :=
  ((verbs1Data.map (fun vn => ([vn.1, capitalizeStr vn.1]).map (fun o =>
    [(o ++ S "n't", [tkn o vn.2, tkn (S "n't") (S "not")]),
     (o ++ S "nt", [tkn o vn.2, tkn (S "nt") (S "not")]),
     (o ++ S "n't've", [tkn o vn.2, tkn (S "n't") (S "not"), tkn (S "'ve") (S "have")]),
     (o ++ S "ntve", [tkn o vn.2, tkn (S "nt") (S "not"), tkn (S "ve") (S "have")])]))).flatten).flatten

/-- `verbs_data_list2` and its `'ve` block (`src/pattern.rs` lines 209-224). -/
def excBlockV2 : List (Str × List ExcTok) :=
  (([(S "could", S "could"), (S "might", S "might"), (S "must", S "must"),
     (S "should", S "should"), (S "would", S "would")].map (fun vn =>
    ([vn.1, capitalizeStr vn.1]).map (fun o =>
      [(o ++ S "'ve", [tkn o vn.2, tkn (S "'ve") (S "have")]),
       (o ++ S "ve", [tkn o vn.2, tkn (S "ve") (S "have")])]))).flatten).flatten

/-- `verbs_data_list3` and its `n't` block (`src/pattern.rs` lines 226-241). -/
def excBlockV3 : List (Str × List ExcTok) :=
  (([(S "ai", S "ai"), (S "are", S "are"), (S "is", S "is"),
     (S "was", S "was"), (S "were", S "were"), (S "have", S "have"),
     (S "has", S "has"), (S "dare", S "dare")].map (fun vn =>
    ([vn.1, capitalizeStr vn.1]).map (fun o =>
      [(o ++ S "n't", [tkn o vn.2, tkn (S "n't") (S "not")]),
       (o ++ S "nt", [tkn o vn.2, tkn (S "nt") (S "not")])]))).flatten).flatten

/-- The trailing-apostrophe block (`src/pattern.rs` lines 243-255). -/
def excBlockTrail : List (Str × List ExcTok) :=
  (([(S "doin", S "doing"), (S "goin", S "going"), (S "nothin", S "nothing"),
     (S "nuthin", S "nothing"), (S "ol", S "old"), (S "somethin", S "something")].map
    (fun onv => (orthCases onv.1).map (fun o =>
      [(o, [tkn o onv.2]),
       (o ++ S "'", [tkn (o ++ S "'") onv.2])]))).flatten).flatten

/-- The leading-apostrophe block (`src/pattern.rs` lines 257-266); no
capitalized variants here. -/
def excBlockLead : List (Str × List ExcTok) :=
  ([(S "em", S "them"), (S "ll", S "will"), (S "nuff", S "enough")].map
    (fun onv =>
      [(onv.1, [tkn onv.1 onv.2]),
       (S "'" ++ onv.1, [tkn (S "'" ++ onv.1) onv.2])])).flatten

/-- The hour strings `1`-`12` (`h.to_string()`). -/
def hourStrs : List Str :=
  (List.range 12).map (fun h => S (toString (h + 1)))

/-- The clock-time block (`src/pattern.rs` lines 268-275). -/
def excBlockHours : List (Str × List ExcTok) :=
  (hourStrs.map (fun h =>
    [(h ++ S "a.m.", [tk h, tkn (S "a.m.") (S "a.m.")]),
     (h ++ S "am", [tk h, tkn (S "am") (S "a.m.")]),
     (h ++ S "p.m.", [tk h, tkn (S "p.m.") (S "p.m.")]),
     (h ++ S "pm", [tk h, tkn (S "pm") (S "p.m.")])])).flatten

/-- `other_exc_map_data` (`src/pattern.rs` lines 277-307). -/
def excBlockOther : List (Str × List ExcTok) :=
  [(S "y'all", [tkn (S "y'") (S "you"), tk (S "all")]),
   (S "yall", [tkn (S "y") (S "you"), tk (S "all")]),
   (S "how'd'y", [tk (S "how"), tk (S "'d"), tkn (S "'y") (S "you")]),
   (S "How'd'y", [tkn (S "How") (S "how"), tk (S "'d"), tkn (S "'y") (S "you")]),
   (S "not've", [tk (S "not"), tkn (S "'ve") (S "have")]),
   (S "notve", [tk (S "not"), tkn (S "ve") (S "have")]),
   (S "Not've", [tkn (S "Not") (S "not"), tkn (S "'ve") (S "have")]),
   (S "Notve", [tkn (S "Not") (S "not"), tkn (S "ve") (S "have")]),
   (S "cannot", [tk (S "can"), tk (S "not")]),
   (S "Cannot", [tkn (S "Can") (S "can"), tk (S "not")]),
   (S "gonna", [tkn (S "gon") (S "going"), tkn (S "na") (S "to")]),
   (S "Gonna", [tkn (S "Gon") (S "going"), tkn (S "na") (S "to")]),
   (S "gotta", [tk (S "got"), tkn (S "ta") (S "to")]),
   (S "Gotta", [tkn (S "Got") (S "got"), tkn (S "ta") (S "to")]),
   (S "let's", [tk (S "let"), tkn (S "'s") (S "us")]),
   (S "Let's", [tkn (S "Let") (S "let"), tkn (S "'s") (S "us")]),
   (S "c'mon", [tkn (S "c'm") (S "come"), tk (S "on")]),
   (S "C'mon", [tkn (S "C'm") (S "come"), tk (S "on")])]

/-- `single_token_exceptions_data` (`src/pattern.rs` lines 309-345). -/
def excBlockSingle : List (Str × List ExcTok) :=
  [(S "'S", [tkn (S "'S") (S "'s")]), (S "'s", [tkn (S "'s") (S "'s")]),
   (S "‘S", [tkn (S "‘S") (S "'s")]), (S "‘s", [tkn (S "‘s") (S "'s")]),
   (S "and/or", [tk (S "and/or")]), (S "w/o", [tkn (S "w/o") (S "without")]),
   (S "'re", [tkn (S "'re") (S "are")]),
   (S "'Cause", [tkn (S "'Cause") (S "because")]),
   (S "'cause", [tkn (S "'cause") (S "because")]),
   (S "'cos", [tkn (S "'cos") (S "because")]),
   (S "'Cos", [tkn (S "'Cos") (S "because")]),
   (S "'coz", [tkn (S "'coz") (S "because")]),
   (S "'Coz", [tkn (S "'Coz") (S "because")]),
   (S "'cuz", [tkn (S "'cuz") (S "because")]),
   (S "'Cuz", [tkn (S "'Cuz") (S "because")]),
   (S "'bout", [tkn (S "'bout") (S "about")]),
   (S "ma'am", [tkn (S "ma'am") (S "madam")]),
   (S "Ma'am", [tkn (S "Ma'am") (S "madam")]),
   (S "o'clock", [tk (S "o'clock")]), (S "O'clock", [tk (S "O'clock")]),
   (S "lovin'", [tkn (S "lovin'") (S "loving")]),
   (S "Lovin'", [tkn (S "Lovin'") (S "loving")]),
   (S "lovin", [tkn (S "lovin") (S "loving")]),
   (S "Lovin", [tkn (S "Lovin") (S "loving")]),
   (S "havin'", [tkn (S "havin'") (S "having")]),
   (S "Havin'", [tkn (S "Havin'") (S "having")]),
   (S "havin", [tkn (S "havin") (S "having")]),
   (S "Havin", [tkn (S "Havin") (S "having")]),
   (S "doin'", [tkn (S "doin'") (S "doing")]),
   (S "Doin'", [tkn (S "Doin'") (S "doing")]),
   (S "doin", [tkn (S "doin") (S "doing")]),
   (S "Doin", [tkn (S "Doin") (S "doing")]),
   (S "goin'", [tkn (S "goin'") (S "going")]),
   (S "Goin'", [tkn (S "Goin'") (S "going")]),
   (S "goin", [tkn (S "goin") (S "going")]),
   (S "Goin", [tkn (S "Goin") (S "going")]),
   (S "Mt.", [tkn (S "Mt.") (S "Mount")]),
   (S "Ak.", [tkn (S "Ak.") (S "Alaska")]),
   (S "Ala.", [tkn (S "Ala.") (S "Alabama")]),
   (S "Apr.", [tkn (S "Apr.") (S "April")]),
   (S "Ariz.", [tkn (S "Ariz.") (S "Arizona")]),
   (S "Ark.", [tkn (S "Ark.") (S "Arkansas")]),
   (S "Aug.", [tkn (S "Aug.") (S "August")]),
   (S "Calif.", [tkn (S "Calif.") (S "California")]),
   (S "Colo.", [tkn (S "Colo.") (S "Colorado")]),
   (S "Conn.", [tkn (S "Conn.") (S "Connecticut")]),
   (S "Dec.", [tkn (S "Dec.") (S "December")]),
   (S "Del.", [tkn (S "Del.") (S "Delaware")]),
   (S "Feb.", [tkn (S "Feb.") (S "February")]),
   (S "Fla.", [tkn (S "Fla.") (S "Florida")]),
   (S "Ga.", [tkn (S "Ga.") (S "Georgia")]),
   (S "Ia.", [tkn (S "Ia.") (S "Iowa")]),
   (S "Id.", [tkn (S "Id.") (S "Idaho")]),
   (S "Ill.", [tkn (S "Ill.") (S "Illinois")]),
   (S "Ind.", [tkn (S "Ind.") (S "Indiana")]),
   (S "Jan.", [tkn (S "Jan.") (S "January")]),
   (S "Jul.", [tkn (S "Jul.") (S "July")]),
   (S "Jun.", [tkn (S "Jun.") (S "June")]),
   (S "Kan.", [tkn (S "Kan.") (S "Kansas")]),
   (S "Kans.", [tkn (S "Kans.") (S "Kansas")]),
   (S "Ky.", [tkn (S "Ky.") (S "Kentucky")]),
   (S "La.", [tkn (S "La.") (S "Louisiana")]),
   (S "Mar.", [tkn (S "Mar.") (S "March")]),
   (S "Mass.", [tkn (S "Mass.") (S "Massachusetts")]),
   (S "Mich.", [tkn (S "Mich.") (S "Michigan")]),
   (S "Minn.", [tkn (S "Minn.") (S "Minnesota")]),
   (S "Miss.", [tkn (S "Miss.") (S "Mississippi")]),
   (S "N.C.", [tkn (S "N.C.") (S "North Carolina")]),
   (S "N.D.", [tkn (S "N.D.") (S "North Dakota")]),
   (S "N.H.", [tkn (S "N.H.") (S "New Hampshire")]),
   (S "N.J.", [tkn (S "N.J.") (S "New Jersey")]),
   (S "N.M.", [tkn (S "N.M.") (S "New Mexico")]),
   (S "N.Y.", [tkn (S "N.Y.") (S "New York")]),
   (S "Neb.", [tkn (S "Neb.") (S "Nebraska")]),
   (S "Nebr.", [tkn (S "Nebr.") (S "Nebraska")]),
   (S "Nev.", [tkn (S "Nev.") (S "Nevada")]),
   (S "Nov.", [tkn (S "Nov.") (S "November")]),
   (S "Oct.", [tkn (S "Oct.") (S "October")]),
   (S "Okla.", [tkn (S "Okla.") (S "Oklahoma")]),
   (S "Ore.", [tkn (S "Ore.") (S "Oregon")]),
   (S "Pa.", [tkn (S "Pa.") (S "Pennsylvania")]),
   (S "S.C.", [tkn (S "S.C.") (S "South Carolina")]),
   (S "Sep.", [tkn (S "Sep.") (S "September")]),
   (S "Sept.", [tkn (S "Sept.") (S "September")]),
   (S "Tenn.", [tkn (S "Tenn.") (S "Tennessee")]),
   (S "Va.", [tkn (S "Va.") (S "Virginia")]),
   (S "Wash.", [tkn (S "Wash.") (S "Washington")]),
   (S "Wis.", [tkn (S "Wis.") (S "Wisconsin")])]

/-- `simple_orth_exceptions` (`src/pattern.rs` lines 347-355). -/
def excBlockSimpleOrth : List (Str × List ExcTok) :=
  ([S "'d", S "a.m.", S "Adm.", S "Bros.", S "co.", S "Co.", S "Corp.",
    S "D.C.", S "Dr.", S "e.g.", S "E.g.", S "E.G.", S "Gen.", S "Gov.",
    S "i.e.", S "I.e.", S "I.E.", S "Inc.", S "Jr.", S "Ltd.", S "Md.",
    S "Messrs.", S "Mo.", S "Mont.", S "Mr.", S "Mrs.", S "Ms.",
    S "p.m.", S "Ph.D.", S "Prof.", S "Rep.", S "Rev.", S "Sen.",
    S "St.", S "vs.", S "v.s."].map (fun k => (k, [tk k])))

/-- The abbreviation fill-in loop (`src/pattern.rs` lines 357-361): insert
each abbreviation as a single token only when its key is absent. -/
def addAbbrevExcs (m : ExcMap) : ExcMap :=
  abbreviationsList.foldl
    (fun m a => if excContains m a then m else excInsert m a [tk a]) m

/-- The emoticon loop (`src/pattern.rs` lines 363-365). -/
def addEmoticonExcs (m : ExcMap) : ExcMap :=
  emoticonsList.foldl (fun m e => excInsert m e [tk e]) m

/-- `EXCLUDE_FROM_EXCEPTIONS_PY` (`src/pattern.rs` lines 81-84). -/
def excludeKeys : List Str :=
  [S "Ill", S "ill", S "Its", S "its", S "Hell", S "hell", S "Shell",
   S "shell", S "Shed", S "shed", S "were", S "Were", S "Well", S "well",
   S "Whore", S "whore"]

/-- `get_english_tokenizer_exceptions_inner` (`src/pattern.rs` lines
85-371): all generation blocks inserted in source order, then the
abbreviation fill-in, the emoticons, and the exclusion removals. -/
def englishExceptions : ExcMap :=
  excludeKeys.foldl excRemove
    (addEmoticonExcs (addAbbrevExcs (excInsertMany []
      (excBlockIm ++ excBlockLl ++ excBlockVe ++ excBlockRe ++ excBlockPronS
       ++ excBlockW ++ excBlockV1 ++ excBlockV2 ++ excBlockV3
       ++ excBlockTrail ++ excBlockLead ++ excBlockHours ++ excBlockOther
       ++ excBlockSingle ++ excBlockSimpleOrth))))

/-- The compiled English rule set (`TokenizerRules::new`, `src/main.rs`
lines 38-87), each compiled pattern replaced by its modelled match
behaviour. -/
def englishRules : TokenizerRules :=
  { prefixes := englishPrefFinds,
    suffixes := englishSuffixes,
    regexInfixes := englishRegexInfixes,
    literalInfixMatcher := some (altsIter englishLiteralInfixStrings),
    tokenMatch := some englishTokenMatcher,
    urlMatch := some englishUrlMatcher,
    exceptions := englishExceptions }

/-- The spans chain left to right from at or after `lo` up to exactly `hi`:
each span is non-degenerate, starts at or after the previous end, and the
last ends at `hi` (`hi = lo` for the empty list). -/
def SpanChain : Nat → List Span → Nat → Prop
  | lo, [], hi => hi = lo
  | lo, sp :: rest, hi => lo ≤ sp.1 ∧ sp.1 < sp.2 ∧ SpanChain sp.2 rest hi

/-- A rule set whose only content is a covering exception entry
`"ab" → ["a", "b"]`; used by witnesses. -/
def excPairRules : TokenizerRules :=
  { trivialRules with exceptions := [(S "ab", [tk (S "a"), tk (S "b")])] }

/-- A rule set whose only content is a non-covering exception entry
`"ab" → ["abc"]` (total length 3 over a 2-character key); used by
witnesses. -/
def excBadRules : TokenizerRules :=
  { trivialRules with exceptions := [(S "ab", [tk (S "abc")])] }

/-- A rule set with just the literal suffix rules `"."` and `"!"`; used by
witnesses. -/
def sufTestRules : TokenizerRules :=
  { trivialRules with suffixes := [litIter (S "."), litIter (S "!")] }

theorem insSorted_perm {α : Type} (le : α → α → Bool) (x : α) (l : List α) :
    List.Perm (insSorted le x l) (x :: l) := by
  induction l with
  | nil => simp [insSorted]
  | cons y ys ih =>
    simp only [insSorted]
    cases hxy : le x y
    · simp only [Bool.false_eq_true, if_false]
      exact (ih.cons y).trans (List.Perm.swap x y ys)
    · simp

theorem insSortBy_perm {α : Type} (le : α → α → Bool) (l : List α) :
    List.Perm (insSortBy le l) l := by
  induction l with
  | nil => simp [insSortBy]
  | cons x xs ih =>
    simp only [insSortBy]
    exact (insSorted_perm le x (insSortBy le xs)).trans (ih.cons x)

theorem mem_insSorted {α : Type} (le : α → α → Bool) (x a : α) (l : List α) :
    a ∈ insSorted le x l ↔ a = x ∨ a ∈ l := by
  have h := (insSorted_perm le x l).mem_iff (a := a)
  simpa using h

theorem insSorted_pairwise {α : Type} (le : α → α → Bool)
    (htot : ∀ a b, le a b = true ∨ le b a = true)
    (htrans : ∀ a b c, le a b = true → le b c = true → le a c = true)
    (x : α) (l : List α) (hl : l.Pairwise (fun a b => le a b = true)) :
    (insSorted le x l).Pairwise (fun a b => le a b = true) := by
  induction l with
  | nil => simp [insSorted]
  | cons y ys ih =>
    rcases List.pairwise_cons.1 hl with ⟨hy, hys⟩
    simp only [insSorted]
    cases hxy : le x y
    · have hyx : le y x = true := by
        rcases htot x y with h1 | h1
        · rw [h1] at hxy; exact absurd hxy (by simp)
        · exact h1
      simp only [Bool.false_eq_true, if_false]
      refine List.pairwise_cons.2 ⟨?_, ih hys⟩
      intro b hb
      rcases (mem_insSorted le x b ys).1 hb with rfl | hb
      · exact hyx
      · exact hy b hb
    · simp only [if_true]
      refine List.pairwise_cons.2 ⟨?_, hl⟩
      intro b hb
      rcases List.mem_cons.1 hb with rfl | hb
      · exact hxy
      · exact htrans x y b hxy (hy b hb)

theorem insSortBy_pairwise {α : Type} (le : α → α → Bool)
    (htot : ∀ a b, le a b = true ∨ le b a = true)
    (htrans : ∀ a b c, le a b = true → le b c = true → le a c = true)
    (l : List α) :
    (insSortBy le l).Pairwise (fun a b => le a b = true) := by
  induction l with
  | nil => simp [insSortBy]
  | cons x xs ih => exact insSorted_pairwise le htot htrans x _ ih

theorem insSortBy_eq_of_pairwise {α : Type} (le : α → α → Bool) (l : List α)
    (h : l.Pairwise (fun a b => le a b = true)) :
    insSortBy le l = l := by
  induction l with
  | nil => rfl
  | cons x xs ih =>
    rcases List.pairwise_cons.1 h with ⟨hx, hxs⟩
    simp only [insSortBy, ih hxs]
    cases xs with
    | nil => rfl
    | cons y ys => simp [insSorted, hx y (by simp)]

theorem attachTokens_texts (pos : Nat) (l : List Str) :
    (attachTokens pos l).map (fun t => t.1) = l := by
  induction l generalizing pos with
  | nil => rfl
  | cons t rest ih => simp [attachTokens, ih]

theorem attachTokens_chain (pos : Nat) (l : List Str) :
    chainSegB pos (attachTokens pos l) (pos + (l.map List.length).sum) = true := by
  induction l generalizing pos with
  | nil => simp [attachTokens, chainSegB]
  | cons t rest ih =>
    have h2 := ih (pos + t.length)
    simp only [attachTokens, chainSegB, List.map_cons, List.sum_cons,
      Bool.and_eq_true, beq_iff_eq]
    exact ⟨⟨by trivial, by trivial⟩, by rw [← Nat.add_assoc]; exact h2⟩

theorem attachTokens_eq_nil_iff (pos : Nat) (l : List Str) :
    attachTokens pos l = [] ↔ l = [] := by
  cases l <;> simp [attachTokens]

theorem chainSegB_append (lo mid hi : Nat) (l1 l2 : List Token)
    (h1 : chainSegB lo l1 mid = true) (h2 : chainSegB mid l2 hi = true) :
    chainSegB lo (l1 ++ l2) hi = true := by
  induction l1 generalizing lo with
  | nil =>
    simp only [chainSegB, beq_iff_eq] at h1
    simpa [h1] using h2
  | cons t rest ih =>
    simp only [chainSegB, Bool.and_eq_true, beq_iff_eq] at h1 ⊢
    exact ⟨h1.1, ih t.2.2 h1.2⟩

theorem chainSegB_imp_chainTokB (lo hi : Nat) (l : List Token)
    (h : chainSegB lo l hi = true) : chainTokB lo l = true := by
  induction l generalizing lo with
  | nil => rfl
  | cons t rest ih =>
    simp only [chainSegB, Bool.and_eq_true] at h
    simp only [chainTokB, Bool.and_eq_true]
    exact ⟨h.1, ih t.2.2 h.2⟩

theorem findFirstPref_some (ps : List (Str → Option Span)) (s : Str) (sp : Span)
    (h : findFirstPref ps s = some sp) : checkPref s sp = true := by
  induction ps with
  | nil => simp [findFirstPref] at h
  | cons f fs ih =>
    simp only [findFirstPref] at h
    cases hf : f s with
    | none => rw [hf] at h; exact ih h
    | some sp' =>
      simp only [hf] at h
      by_cases hc : checkPref s sp' = true
      · rw [if_pos hc] at h
        cases h
        exact hc
      · rw [if_neg hc] at h
        exact ih h

theorem checkPref_facts (s : Str) (sp : Span) (h : checkPref s sp = true) :
    sp.1 = 0 ∧ (s.take sp.2).drop sp.1 ≠ [] := by
  simp only [checkPref, Bool.and_eq_true, beq_iff_eq, Bool.not_eq_true',
    List.isEmpty_eq_false] at h
  exact h

theorem stripPrefs_spec (ps : List (Str → Option Span)) :
    ∀ fuel s pos, s.length ≤ fuel →
      ((stripPrefs ps fuel s pos).1.map (fun t => t.1)).flatten
          ++ (stripPrefs ps fuel s pos).2.1 = s
      ∧ chainSegB pos (stripPrefs ps fuel s pos).1 (stripPrefs ps fuel s pos).2.2 = true
      ∧ (stripPrefs ps fuel s pos).2.2
          = pos + ((stripPrefs ps fuel s pos).1.map (fun t => t.1)).flatten.length := by
  intro fuel
  induction fuel with
  | zero =>
    intro s pos hle
    simp [stripPrefs, chainSegB]
  | succ fuel ih =>
    intro s pos hle
    by_cases hs : s.isEmpty
    · simp [stripPrefs, hs, chainSegB]
    · cases hfp : findFirstPref ps s with
      | none => simp [stripPrefs, hs, hfp, chainSegB]
      | some sp =>
        obtain ⟨hz, hne⟩ := checkPref_facts s sp (findFirstPref_some ps s sp hfp)
        have htext : (s.take sp.2).drop sp.1 = s.take sp.2 := by rw [hz, List.drop_zero]
        have hpos2 : 0 < sp.2 := by
          by_contra hc
          push_neg at hc
          interval_cases sp.2
          simp [htext] at hne
        have hsne : s ≠ [] := by
          intro hcon
          rw [hcon] at hne
          simp at hne
        have hlen : (s.drop sp.2).length ≤ fuel := by
          rw [List.length_drop]
          have : 1 ≤ s.length := List.length_pos.2 hsne
          omega
        have IH := ih (s.drop sp.2) (pos + ((s.take sp.2).drop sp.1).length) hlen
        simp only [stripPrefs, hs, Bool.false_eq_true, if_false, hfp,
          List.map_cons, List.flatten_cons, chainSegB, Bool.and_eq_true, beq_iff_eq]
        refine ⟨?_, ⟨⟨by trivial, by trivial⟩, ?_⟩, ?_⟩
        · rw [List.append_assoc, IH.1, htext, List.take_append_drop]
        · exact IH.2.1
        · rw [IH.2.2, List.length_append]
          omega

theorem findFirstSuffix_some (ss : List (Str → List Span)) (s : Str) (sp : Span)
    (h : findFirstSuffix ss s = some sp) :
    sp.2 = s.length ∧ (s.take sp.2).drop sp.1 ≠ [] ∧ ∃ g ∈ ss, sp ∈ g s := by
  induction ss with
  | nil => simp [findFirstSuffix] at h
  | cons g gs ih =>
    simp only [findFirstSuffix] at h
    cases hp : pickSuffixMatch s (g s) with
    | none =>
      rw [hp] at h
      obtain ⟨h1, h2, g', hg', hsp⟩ := ih h
      exact ⟨h1, h2, g', List.mem_cons_of_mem g hg', hsp⟩
    | some sp' =>
      rw [hp] at h
      cases h
      have hfind := hp
      simp only [pickSuffixMatch] at hfind
      have hpred := List.find?_some hfind
      have hmem := List.mem_of_find?_eq_some hfind
      simp only [Bool.and_eq_true, beq_iff_eq, Bool.not_eq_true',
        List.isEmpty_eq_false] at hpred
      exact ⟨hpred.1, hpred.2, g, List.mem_cons_self g gs, List.mem_reverse.1 hmem⟩

theorem stripSufs_spec (ss : List (Str → List Span)) :
    ∀ fuel s, s.length ≤ fuel →
      (stripSufs ss fuel s).1 ++ ((stripSufs ss fuel s).2.reverse).flatten = s := by
  intro fuel
  induction fuel with
  | zero => intro s hle; simp [stripSufs]
  | succ fuel ih =>
    intro s hle
    cases hfs : findFirstSuffix ss s with
    | none => simp [stripSufs, hfs]
    | some sp =>
      obtain ⟨hend, hne, -⟩ := findFirstSuffix_some ss s sp hfs
      have hlt : sp.1 < s.length := by
        by_contra hc
        push_neg at hc
        apply hne
        rw [List.drop_eq_nil_iff]
        have := List.length_take_le sp.2 s
        omega
      have hlen : (s.take sp.1).length ≤ fuel := by
        rw [List.length_take]
        omega
      have IH := ih (s.take sp.1) hlen
      simp only [stripSufs, hfs, List.reverse_cons, List.flatten_append,
        List.flatten_cons, List.flatten_nil]
      rw [← List.append_assoc, IH, List.append_nil, hend, List.take_length,
        List.take_append_drop]

theorem spanChain_le (lo hi : Nat) (l : List Span) (h : SpanChain lo l hi) :
    lo ≤ hi := by
  induction l generalizing lo with
  | nil => simp only [SpanChain] at h; omega
  | cons sp rest ih =>
    obtain ⟨h1, h2, h3⟩ := h
    have := ih sp.2 h3
    omega

theorem spanChain_mem_lo (lo hi : Nat) (l : List Span) (h : SpanChain lo l hi) :
    ∀ sp ∈ l, lo ≤ sp.1 := by
  induction l generalizing lo with
  | nil => simp
  | cons c rest ih =>
    obtain ⟨h1, h2, h3⟩ := h
    intro sp hsp
    rcases List.mem_cons.1 hsp with rfl | hsp
    · exact h1
    · have := ih c.2 h3 sp hsp
      omega

theorem spanChain_append_one (lo hi : Nat) (l : List Span) (c : Span)
    (h : SpanChain lo l hi) (hc1 : hi ≤ c.1) (hc2 : c.1 < c.2) :
    SpanChain lo (l ++ [c]) c.2 := by
  induction l generalizing lo with
  | nil =>
    simp only [SpanChain] at h
    subst h
    exact ⟨hc1, hc2, rfl⟩
  | cons x rest ih =>
    obtain ⟨h1, h2, h3⟩ := h
    exact ⟨h1, h2, ih x.2 h3⟩

theorem spanChain_setLastEnd (lo hi e : Nat) (l : List Span)
    (h : SpanChain lo l hi) (hne : l ≠ []) (he : hi < e) :
    SpanChain lo (setLastEnd l e) e := by
  induction l generalizing lo with
  | nil => exact absurd rfl hne
  | cons x rest ih =>
    obtain ⟨h1, h2, h3⟩ := h
    cases rest with
    | nil =>
      simp only [SpanChain] at h3
      subst h3
      exact ⟨h1, by omega, rfl⟩
    | cons y ys =>
      exact ⟨h1, h2, ih x.2 h3 (by simp)⟩

theorem sweep_fold_chain (l : List Span) :
    ∀ acc cur, SpanChain 0 acc cur → (∀ sp ∈ l, sp.1 < sp.2) →
      SpanChain 0 (l.foldl sweepStep (acc, cur)).1 (l.foldl sweepStep (acc, cur)).2 := by
  induction l with
  | nil => intro acc cur h _; exact h
  | cons c rest ih =>
    intro acc cur h hlt
    have hc := hlt c (by simp)
    have hrest : ∀ sp ∈ rest, sp.1 < sp.2 := fun sp hsp => hlt sp (List.mem_cons_of_mem c hsp)
    simp only [List.foldl_cons]
    by_cases h1 : c.1 ≥ cur
    · have : sweepStep (acc, cur) c = (acc ++ [c], c.2) := by simp [sweepStep, h1]
      rw [this]
      exact ih _ _ (spanChain_append_one 0 cur acc c h h1 hc) hrest
    · by_cases h2 : c.2 > cur
      · have hne : acc ≠ [] := by
          intro hcon
          subst hcon
          simp only [SpanChain] at h
          omega
        have : sweepStep (acc, cur) c = (setLastEnd acc c.2, c.2) := by
          simp [sweepStep, h1, h2]
        rw [this]
        exact ih _ _ (spanChain_setLastEnd 0 cur c.2 acc h hne h2) hrest
      · have : sweepStep (acc, cur) c = (acc, cur) := by simp [sweepStep, h1, h2]
        rw [this]
        exact ih _ _ h hrest

theorem spanChain_pairwise_startLe (lo hi : Nat) (l : List Span)
    (h : SpanChain lo l hi) : l.Pairwise (fun a b => startLe a b = true) := by
  induction l generalizing lo with
  | nil => simp
  | cons c rest ih =>
    obtain ⟨h1, h2, h3⟩ := h
    refine List.pairwise_cons.2 ⟨?_, ih c.2 h3⟩
    intro b hb
    have := spanChain_mem_lo c.2 hi rest h3 b hb
    simp only [startLe, decide_eq_true_eq]
    omega

theorem dropTakeChain (s : Str) (a b c : Nat) (hab : a ≤ b) (hbc : b ≤ c) :
    (s.take b).drop a ++ (s.take c).drop b = (s.take c).drop a := by
  rw [List.drop_take, List.drop_take, List.drop_take]
  have hdrop : s.drop b = (s.drop a).drop (b - a) := by
    rw [List.drop_drop]
    congr 1
    omega
  rw [hdrop]
  have htake := List.take_add (s.drop a) (b - a) (c - b)
  have harith : b - a + (c - b) = c - a := by omega
  rw [harith] at htake
  rw [← htake]

theorem sliceStep_snd (chunk : Str) (st : List Str × Nat) (sp : Span) :
    (sliceStep chunk st sp).2 = sp.2 := rfl

theorem sliceStep_flatten (chunk : Str) (toks : List Str) (cur : Nat) (sp : Span)
    (h1 : cur ≤ sp.1) (h2 : sp.1 ≤ sp.2) :
    (sliceStep chunk (toks, cur) sp).1.flatten
      = toks.flatten ++ ((chunk.take sp.2).drop cur) := by
  have hjoin : (chunk.take sp.1).drop cur ++ (chunk.take sp.2).drop sp.1
      = (chunk.take sp.2).drop cur := dropTakeChain chunk cur sp.1 sp.2 h1 h2
  simp only [sliceStep]
  by_cases hgt : sp.1 > cur
  · rw [if_pos hgt]
    by_cases hemp : ((chunk.take sp.1).drop cur).isEmpty
    · rw [if_pos hemp, List.flatten_append]
      rw [List.isEmpty_iff] at hemp
      rw [← hjoin, hemp]
      simp
    · rw [if_neg hemp]
      simp only [List.flatten_append, List.flatten_cons, List.flatten_nil,
        List.append_nil, List.append_assoc]
      rw [hjoin]
  · have hceq : sp.1 = cur := by omega
    rw [if_neg hgt]
    simp only [List.flatten_append, List.flatten_cons, List.flatten_nil,
      List.append_nil]
    rw [hceq]

theorem slice_fold_spec (chunk : Str) (fm : List Span) :
    ∀ toks cur hi, SpanChain cur fm hi →
      ((fm.foldl (sliceStep chunk) (toks, cur)).1.flatten
          = toks.flatten ++ ((chunk.take hi).drop cur))
      ∧ (fm.foldl (sliceStep chunk) (toks, cur)).2 = hi := by
  induction fm with
  | nil =>
    intro toks cur hi h
    simp only [SpanChain] at h
    subst h
    simp
  | cons sp rest ih =>
    intro toks cur hi h
    obtain ⟨h1, h2, h3⟩ := h
    have hhi : sp.2 ≤ hi := spanChain_le sp.2 hi rest h3
    have hpair : sliceStep chunk (toks, cur) sp
        = ((sliceStep chunk (toks, cur) sp).1, sp.2) := by
      rw [← sliceStep_snd chunk (toks, cur) sp]
    rw [List.foldl_cons, hpair]
    have IH := ih (sliceStep chunk (toks, cur) sp).1 sp.2 hi h3
    refine ⟨?_, IH.2⟩
    rw [IH.1, sliceStep_flatten chunk toks cur sp h1 (by omega), List.append_assoc,
      dropTakeChain chunk cur sp.2 hi (by omega) hhi]

theorem collectSpans_lt (chunk : Str) (litM : Option (Str → List Span))
    (regexInfs : List (Str → List Span)) :
    ∀ sp ∈ collectSpans chunk litM regexInfs, sp.1 < sp.2 := by
  intro sp hsp
  simp only [collectSpans, List.mem_append] at hsp
  rcases hsp with hsp | hsp
  · cases litM with
    | none => simp at hsp
    | some m =>
      simp only [List.mem_filter, decide_eq_true_eq] at hsp
      omega
  · simp only [List.mem_flatten, List.mem_map] at hsp
    obtain ⟨l, ⟨g, hg, rfl⟩, hmem⟩ := hsp
    simp only [List.mem_filter, Bool.not_eq_true', List.isEmpty_eq_false] at hmem
    have hne := hmem.2
    rcases Nat.lt_or_ge sp.1 sp.2 with h | h
    · exact h
    · exfalso
      apply hne
      rw [List.drop_eq_nil_iff]
      have := List.length_take_le sp.2 chunk
      omega

theorem resolveSpans_chain (l : List Span) (hlt : ∀ sp ∈ l, sp.1 < sp.2) :
    ∃ hi, SpanChain 0 (resolveSpans l) hi := by
  have hsorted_lt : ∀ sp ∈ insSortBy spanKeyLe l, sp.1 < sp.2 := by
    intro sp hsp
    exact hlt sp ((insSortBy_perm spanKeyLe l).mem_iff.1 hsp)
  have hchain := sweep_fold_chain (insSortBy spanKeyLe l) [] 0 rfl hsorted_lt
  refine ⟨((insSortBy spanKeyLe l).foldl sweepStep ([], 0)).2, ?_⟩
  have hpw := spanChain_pairwise_startLe 0 _ _ hchain
  simp only [resolveSpans, sweep]
  rw [insSortBy_eq_of_pairwise startLe _ hpw]
  exact hchain

theorem sliceBySpans_flatten (chunk : Str) (fm : List Span) (hi : Nat)
    (h : SpanChain 0 fm hi) :
    (sliceBySpans chunk fm).flatten = chunk := by
  have hf := slice_fold_spec chunk fm [] 0 hi h
  simp only [sliceBySpans]
  rw [hf.2]
  by_cases hlt : hi < chunk.length
  · rw [if_pos hlt]
    have hfp : (chunk.drop hi).isEmpty = false := by
      rw [List.isEmpty_eq_false]
      intro hcon
      rw [List.drop_eq_nil_iff] at hcon
      omega
    rw [hfp]
    simp only [Bool.false_eq_true, if_false, List.flatten_append, hf.1]
    simp only [List.flatten_nil, List.nil_append, List.drop_zero,
      List.flatten_cons, List.append_nil]
    exact List.take_append_drop hi chunk
  · rw [if_neg hlt]
    rw [hf.1]
    simp only [List.flatten_nil, List.nil_append, List.drop_zero]
    exact List.take_of_length_le (by omega)

theorem simpleInfix_flatten (chunk : Str) (litM : Option (Str → List Span))
    (regexInfs : List (Str → List Span)) :
    (simpleInfixTokenizeChunkInternal chunk litM regexInfs).flatten = chunk ∨ chunk = [] := by
  by_cases hc : chunk.isEmpty
  · right
    exact List.isEmpty_iff.1 hc
  · left
    simp only [simpleInfixTokenizeChunkInternal, hc, Bool.false_eq_true, if_false]
    by_cases hsp : (collectSpans chunk litM regexInfs).isEmpty
    · simp [hsp]
    · simp only [hsp, Bool.false_eq_true, if_false]
      obtain ⟨hi, hchain⟩ := resolveSpans_chain _ (collectSpans_lt chunk litM regexInfs)
      have hflat := sliceBySpans_flatten chunk _ hi hchain
      by_cases ht : (sliceBySpans chunk (resolveSpans (collectSpans chunk litM regexInfs))).isEmpty
      · simp [ht]
      · simp only [ht, Bool.false_eq_true, if_false]
        exact hflat

theorem simpleInfix_ne_nil (chunk : Str) (litM : Option (Str → List Span))
    (regexInfs : List (Str → List Span)) (hc : chunk ≠ []) :
    simpleInfixTokenizeChunkInternal chunk litM regexInfs ≠ [] := by
  have hce : chunk.isEmpty = false := by rw [List.isEmpty_eq_false]; exact hc
  simp only [simpleInfixTokenizeChunkInternal, hce, Bool.false_eq_true, if_false]
  by_cases hsp : (collectSpans chunk litM regexInfs).isEmpty
  · simp [hsp]
  · simp only [hsp, Bool.false_eq_true, if_false]
    by_cases ht : (sliceBySpans chunk (resolveSpans (collectSpans chunk litM regexInfs))).isEmpty
    · simp [ht]
    · simp only [ht, Bool.false_eq_true, if_false]
      rw [← List.isEmpty_eq_false]
      exact Bool.not_eq_true _ ▸ (Bool.eq_false_iff.2 ht)

theorem tokenizeChunkRest_spec (chunk : Str) (rules : TokenizerRules) (base : Nat)
    (hc : chunk ≠ []) :
    ((tokenizeChunkRest chunk rules base).map (fun t => t.1)).flatten = chunk
    ∧ chainSegB base (tokenizeChunkRest chunk rules base) (base + chunk.length) = true
    ∧ tokenizeChunkRest chunk rules base ≠ [] := by
  have hce : chunk.isEmpty = false := List.isEmpty_eq_false.2 hc
  cases htm : fullSpanMatch rules.tokenMatch chunk with
  | true =>
    simp only [tokenizeChunkRest, htm, if_true]
    refine ⟨by simp, ?_, by simp⟩
    simp [chainSegB]
  | false =>
  cases hurl : fullSpanMatch rules.urlMatch chunk with
  | true =>
    simp only [tokenizeChunkRest, htm, hurl, Bool.false_eq_true, if_false, if_true]
    refine ⟨by simp, ?_, by simp⟩
    simp [chainSegB]
  | false =>
    obtain ⟨hp1, hp2, hp3⟩ := stripPrefs_spec rules.prefixes chunk.length chunk base (le_refl _)
    simp only [tokenizeChunkRest, htm, hurl, Bool.false_eq_true, if_false]
    cases hs1 : (stripPrefs rules.prefixes chunk.length chunk base).2.1.isEmpty with
    | true =>
      -- prefixes consumed the whole chunk: no suffixes, no infix parts
      have hs1nil : (stripPrefs rules.prefixes chunk.length chunk base).2.1 = [] :=
        List.isEmpty_iff.1 hs1
      rw [hs1nil] at hp1
      rw [List.append_nil] at hp1
      simp only [hs1nil, List.isEmpty_nil, if_true, attachTokens, List.reverse_nil,
        List.append_nil, List.map_nil, List.sum_nil]
      have hne : (stripPrefs rules.prefixes chunk.length chunk base).1 ≠ [] := by
        intro hcon
        rw [hcon] at hp1
        simp at hp1
        exact hc hp1
      have hnee : ((stripPrefs rules.prefixes chunk.length chunk base).1).isEmpty = false :=
        List.isEmpty_eq_false.2 hne
      simp only [hnee, Bool.false_and, Bool.false_eq_true, if_false]
      refine ⟨hp1, ?_, hne⟩
      have : (stripPrefs rules.prefixes chunk.length chunk base).2.2 = base + chunk.length := by
        rw [hp3, hp1]
      rw [← this]
      exact hp2
    | false =>
      have hs1ne : (stripPrefs rules.prefixes chunk.length chunk base).2.1 ≠ [] :=
        List.isEmpty_eq_false.1 hs1
      have hsuf := stripSufs_spec rules.suffixes
        (stripPrefs rules.prefixes chunk.length chunk base).2.1.length
        (stripPrefs rules.prefixes chunk.length chunk base).2.1 (le_refl _)
      simp only [hs1, Bool.false_eq_true, if_false]
      cases hs2 : (stripSufs rules.suffixes
          (stripPrefs rules.prefixes chunk.length chunk base).2.1.length
          (stripPrefs rules.prefixes chunk.length chunk base).2.1).1.isEmpty with
      | true =>
        -- suffixes consumed the remaining slice: no infix parts
        have hs2nil := List.isEmpty_iff.1 hs2
        rw [hs2nil, List.nil_append] at hsuf
        simp only [hs2nil, List.isEmpty_nil, if_true, List.map_nil, List.sum_nil,
          Nat.add_zero, attachTokens, List.append_nil]
        have hsufne : (stripSufs rules.suffixes
            (stripPrefs rules.prefixes chunk.length chunk base).2.1.length
            (stripPrefs rules.prefixes chunk.length chunk base).2.1).2.reverse ≠ [] := by
          intro hcon
          rw [hcon] at hsuf
          simp at hsuf
          exact hs1ne hsuf
        have hstoksne : attachTokens (stripPrefs rules.prefixes chunk.length chunk base).2.2
            ((stripSufs rules.suffixes
              (stripPrefs rules.prefixes chunk.length chunk base).2.1.length
              (stripPrefs rules.prefixes chunk.length chunk base).2.1).2.reverse) ≠ [] := by
          rw [Ne, attachTokens_eq_nil_iff]
          exact hsufne
        have hallne : (stripPrefs rules.prefixes chunk.length chunk base).1
            ++ attachTokens (stripPrefs rules.prefixes chunk.length chunk base).2.2
              ((stripSufs rules.suffixes
                (stripPrefs rules.prefixes chunk.length chunk base).2.1.length
                (stripPrefs rules.prefixes chunk.length chunk base).2.1).2.reverse) ≠ [] := by
          simp only [Ne, List.append_eq_nil]
          intro hcon
          exact hstoksne hcon.2
        have hallemp : ((stripPrefs rules.prefixes chunk.length chunk base).1
            ++ attachTokens (stripPrefs rules.prefixes chunk.length chunk base).2.2
              ((stripSufs rules.suffixes
                (stripPrefs rules.prefixes chunk.length chunk base).2.1.length
                (stripPrefs rules.prefixes chunk.length chunk base).2.1).2.reverse)).isEmpty = false :=
          List.isEmpty_eq_false.2 hallne
        simp only [hallemp, Bool.false_and, Bool.false_eq_true, if_false]
        refine ⟨?_, ?_, hallne⟩
        · rw [List.map_append, List.flatten_append, attachTokens_texts, hsuf, hp1]
        · have hchain2 := attachTokens_chain
            (stripPrefs rules.prefixes chunk.length chunk base).2.2
            ((stripSufs rules.suffixes
              (stripPrefs rules.prefixes chunk.length chunk base).2.1.length
              (stripPrefs rules.prefixes chunk.length chunk base).2.1).2.reverse)
          have hlen : (stripPrefs rules.prefixes chunk.length chunk base).2.2
              + (((stripSufs rules.suffixes
                  (stripPrefs rules.prefixes chunk.length chunk base).2.1.length
                  (stripPrefs rules.prefixes chunk.length chunk base).2.1).2.reverse).map
                    List.length).sum
              = base + chunk.length := by
            rw [hp3, ← List.length_flatten, hsuf]
            have := congrArg List.length hp1
            rw [List.length_append] at this
            omega
          rw [hlen] at hchain2
          exact chainSegB_append base _ _ _ _ hp2 hchain2
      | false =>
        have hs2ne : (stripSufs rules.suffixes
            (stripPrefs rules.prefixes chunk.length chunk base).2.1.length
            (stripPrefs rules.prefixes chunk.length chunk base).2.1).1 ≠ [] :=
          List.isEmpty_eq_false.1 hs2
        have hinf := simpleInfix_flatten
          ((stripSufs rules.suffixes
            (stripPrefs rules.prefixes chunk.length chunk base).2.1.length
            (stripPrefs rules.prefixes chunk.length chunk base).2.1).1)
          rules.literalInfixMatcher rules.regexInfixes
        rcases hinf with hinf | hinf
        swap
        · exact absurd hinf hs2ne
        have hinfne := simpleInfix_ne_nil
          ((stripSufs rules.suffixes
            (stripPrefs rules.prefixes chunk.length chunk base).2.1.length
            (stripPrefs rules.prefixes chunk.length chunk base).2.1).1)
          rules.literalInfixMatcher rules.regexInfixes hs2ne
        simp only [hs2, Bool.false_eq_true, if_false]
        have hitoksne : attachTokens (stripPrefs rules.prefixes chunk.length chunk base).2.2
            (simpleInfixTokenizeChunkInternal
              ((stripSufs rules.suffixes
                (stripPrefs rules.prefixes chunk.length chunk base).2.1.length
                (stripPrefs rules.prefixes chunk.length chunk base).2.1).1)
              rules.literalInfixMatcher rules.regexInfixes) ≠ [] := by
          rw [Ne, attachTokens_eq_nil_iff]
          exact hinfne
        have hallne : (stripPrefs rules.prefixes chunk.length chunk base).1
            ++ attachTokens (stripPrefs rules.prefixes chunk.length chunk base).2.2
              (simpleInfixTokenizeChunkInternal
                ((stripSufs rules.suffixes
                  (stripPrefs rules.prefixes chunk.length chunk base).2.1.length
                  (stripPrefs rules.prefixes chunk.length chunk base).2.1).1)
                rules.literalInfixMatcher rules.regexInfixes)
            ++ attachTokens ((stripPrefs rules.prefixes chunk.length chunk base).2.2
                + ((simpleInfixTokenizeChunkInternal
                    ((stripSufs rules.suffixes
                      (stripPrefs rules.prefixes chunk.length chunk base).2.1.length
                      (stripPrefs rules.prefixes chunk.length chunk base).2.1).1)
                    rules.literalInfixMatcher rules.regexInfixes).map List.length).sum)
                ((stripSufs rules.suffixes
                  (stripPrefs rules.prefixes chunk.length chunk base).2.1.length
                  (stripPrefs rules.prefixes chunk.length chunk base).2.1).2.reverse) ≠ [] := by
          simp only [Ne, List.append_eq_nil]
          intro hcon
          exact hitoksne hcon.1.2
        have hallemp := List.isEmpty_eq_false.2 hallne
        simp only [hallemp, Bool.false_and, Bool.false_eq_true, if_false]
        refine ⟨?_, ?_, hallne⟩
        · simp only [List.map_append, List.flatten_append, attachTokens_texts]
          rw [hinf, List.append_assoc, hsuf, hp1]
        · have hchain2 := attachTokens_chain
            (stripPrefs rules.prefixes chunk.length chunk base).2.2
            (simpleInfixTokenizeChunkInternal
              ((stripSufs rules.suffixes
                (stripPrefs rules.prefixes chunk.length chunk base).2.1.length
                (stripPrefs rules.prefixes chunk.length chunk base).2.1).1)
              rules.literalInfixMatcher rules.regexInfixes)
          have hchain3 := attachTokens_chain
            ((stripPrefs rules.prefixes chunk.length chunk base).2.2
              + ((simpleInfixTokenizeChunkInternal
                  ((stripSufs rules.suffixes
                    (stripPrefs rules.prefixes chunk.length chunk base).2.1.length
                    (stripPrefs rules.prefixes chunk.length chunk base).2.1).1)
                  rules.literalInfixMatcher rules.regexInfixes).map List.length).sum)
            ((stripSufs rules.suffixes
              (stripPrefs rules.prefixes chunk.length chunk base).2.1.length
              (stripPrefs rules.prefixes chunk.length chunk base).2.1).2.reverse)
          have hfinal : (stripPrefs rules.prefixes chunk.length chunk base).2.2
              + ((simpleInfixTokenizeChunkInternal
                  ((stripSufs rules.suffixes
                    (stripPrefs rules.prefixes chunk.length chunk base).2.1.length
                    (stripPrefs rules.prefixes chunk.length chunk base).2.1).1)
                  rules.literalInfixMatcher rules.regexInfixes).map List.length).sum
              + (((stripSufs rules.suffixes
                  (stripPrefs rules.prefixes chunk.length chunk base).2.1.length
                  (stripPrefs rules.prefixes chunk.length chunk base).2.1).2.reverse).map
                    List.length).sum
              = base + chunk.length := by
            rw [hp3, ← List.length_flatten, ← List.length_flatten, hinf]
            have h1 := congrArg List.length hp1
            have h2 := congrArg List.length hsuf
            rw [List.length_append] at h1 h2
            omega
          rw [hfinal] at hchain3
          rw [List.append_assoc]
          exact chainSegB_append base _ _ _ _ hp2
            (chainSegB_append _ _ _ _ _ hchain2 hchain3)

theorem excFaithful_get (m : ExcMap) (k : Str) (entry : List ExcTok)
    (hf : excFaithfulB m = true) (hg : excGet m k = some entry) :
    (entry.map ExcTok.orth).flatten = k := by
  simp only [excGet] at hg
  cases hfind : m.find? (fun p => p.1 == k) with
  | none => rw [hfind] at hg; exact Option.noConfusion hg
  | some p =>
    rw [hfind] at hg
    have hg : p.2 = entry := by simpa using hg
    have hkey : (p.1 == k) = true := by
      have h := List.find?_some hfind
      simpa using h
    have hmem : p ∈ m := List.mem_of_find?_eq_some hfind
    rw [beq_iff_eq] at hkey
    have hall := (List.all_eq_true.1 hf) p hmem
    rw [beq_iff_eq] at hall
    rw [← hg, hall, hkey]

theorem tokenizeChunk_spec (chunk : Str) (rules : TokenizerRules) (base : Nat)
    (hc : chunk ≠ []) (hf : excFaithfulB rules.exceptions = true) :
    ((tokenizeChunk chunk rules base).map (fun t => t.1)).flatten = chunk
    ∧ chainSegB base (tokenizeChunk chunk rules base) (base + chunk.length) = true
    ∧ tokenizeChunk chunk rules base ≠ [] := by
  have hce : chunk.isEmpty = false := List.isEmpty_eq_false.2 hc
  cases hg : excGet rules.exceptions chunk with
  | none =>
    have hr := tokenizeChunkRest_spec chunk rules base hc
    simpa only [tokenizeChunk, hce, Bool.false_eq_true, if_false, hg] using hr
  | some entry =>
    by_cases hsum : ((entry.map ExcTok.orth).map List.length).sum = chunk.length
    · simp only [tokenizeChunk, hce, Bool.false_eq_true, if_false, hg, if_pos hsum]
      have hjoin := excFaithful_get rules.exceptions chunk entry hf hg
      refine ⟨?_, ?_, ?_⟩
      · rw [attachTokens_texts]
        exact hjoin
      · have hch := attachTokens_chain base (entry.map ExcTok.orth)
        rw [hsum] at hch
        exact hch
      · rw [Ne, attachTokens_eq_nil_iff]
        intro hcon
        rw [hcon] at hjoin
        simp at hjoin
        exact hc hjoin
    · have hr := tokenizeChunkRest_spec chunk rules base hc
      simpa only [tokenizeChunk, hce, Bool.false_eq_true, if_false, hg, if_neg hsum] using hr

theorem splitWsAux_ne_nil (fuel : Nat) :
    ∀ s, ∀ w ∈ splitWsAux fuel s, w ≠ [] := by
  induction fuel with
  | zero => intro s w hw; simp [splitWsAux] at hw
  | succ fuel ih =>
    intro s w hw
    simp only [splitWsAux] at hw
    by_cases hs1 : (s.dropWhile isRustWs).isEmpty
    · rw [if_pos hs1] at hw
      simp at hw
    · rw [if_neg hs1] at hw
      rcases List.mem_cons.1 hw with rfl | hw
      · cases hds : s.dropWhile isRustWs with
        | nil =>
          exfalso
          apply hs1
          rw [hds]
          rfl
        | cons a t =>
          have ha : isRustWs a = false := by
            have h := List.head?_dropWhile_not isRustWs s
            rw [hds] at h
            simpa using h
          simp [List.takeWhile_cons, ha]
      · exact ih _ w hw

theorem splitWs_ne_nil (s : Str) : ∀ w ∈ splitWs s, w ≠ [] :=
  splitWsAux_ne_nil s.length s

theorem chunksInfoAux_mono (sentence : Str) :
    ∀ cs pos, (∀ c ∈ cs, c ≠ []) →
      (chunksInfoAux sentence pos cs).Pairwise (fun a b => a.1 < b.1)
      ∧ ∀ oc ∈ chunksInfoAux sentence pos cs, pos ≤ oc.1 := by
  intro cs
  induction cs with
  | nil => intro pos _; simp [chunksInfoAux]
  | cons c rest ih =>
    intro pos hne
    simp only [chunksInfoAux]
    cases hf : findSub (sentence.drop pos) c with
    | none => simp
    | some r =>
      have hcne : c ≠ [] := hne c (by simp)
      have hclen : 1 ≤ c.length := List.length_pos.2 hcne
      have hrest : ∀ x ∈ rest, x ≠ [] := fun x hx => hne x (List.mem_cons_of_mem c hx)
      have IH := ih (pos + r + c.length) hrest
      constructor
      · refine List.pairwise_cons.2 ⟨?_, IH.1⟩
        intro b hb
        have := IH.2 b hb
        omega
      · intro oc hoc
        rcases List.mem_cons.1 hoc with rfl | hoc
        · omega
        · have := IH.2 oc hoc
          omega

theorem chunksInfo_pairwise (sentence : Str) :
    (chunksInfo sentence).Pairwise (fun a b => a.1 < b.1) :=
  (chunksInfoAux_mono sentence (splitWs sentence) 0 (splitWs_ne_nil sentence)).1

theorem pairwise_lt_of_le_nodup (l : List (Nat × List Str))
    (hle : l.Pairwise (fun a b => leFst a b = true))
    (hnd : (l.map (fun x => x.1)).Nodup) :
    l.Pairwise (fun a b => a.1 < b.1) := by
  induction l with
  | nil => simp
  | cons x xs ih =>
    rcases List.pairwise_cons.1 hle with ⟨hx, hxs⟩
    rw [List.map_cons, List.nodup_cons] at hnd
    refine List.pairwise_cons.2 ⟨?_, ih hxs hnd.2⟩
    intro b hb
    have h1 := hx b hb
    simp only [leFst, decide_eq_true_eq] at h1
    have h2 : x.1 ≠ b.1 := by
      intro hcon
      exact hnd.1 (hcon ▸ List.mem_map_of_mem (fun y => y.1) hb)
    omega

theorem leFst_total : ∀ a b : Nat × List Str, leFst a b = true ∨ leFst b a = true := by
  intro a b
  simp only [leFst, decide_eq_true_eq]
  omega

theorem leFst_trans : ∀ a b c : Nat × List Str,
    leFst a b = true → leFst b c = true → leFst a c = true := by
  intro a b c
  simp only [leFst, decide_eq_true_eq]
  omega

theorem chunksInfo_head_zero (s : Str) (ch : Char) (h1 : s.head? = some ch)
    (h2 : isRustWs ch = false) :
    (chunksInfo s).head?.map (fun oc => oc.1) = some 0 := by
  cases s with
  | nil => simp at h1
  | cons a t =>
    simp only [List.head?_cons, Option.some.injEq] at h1
    subst h1
    have hdw : (a :: t).dropWhile isRustWs = a :: t := by
      rw [List.dropWhile_cons]
      simp [h2]
    simp only [chunksInfo, splitWs, List.length_cons, splitWsAux, hdw]
    have hne : ((a :: t).takeWhile (fun c => !isRustWs c)) :: splitWsAux t.length
        ((a :: t).dropWhile (fun c => !isRustWs c)) ≠ [] := by simp
    rw [if_neg (by simp : ¬(a :: t).isEmpty = true)]
    simp only [chunksInfoAux, List.drop_zero]
    have hpre : ((a :: t).takeWhile (fun c => !isRustWs c)).isPrefixOf (a :: t) = true :=
      List.isPrefixOf_iff_prefix.2 (List.takeWhile_prefix _)
    simp only [findSub, hpre, if_true]
    simp

theorem spanKeyLe_total : ∀ a b : Span, spanKeyLe a b = true ∨ spanKeyLe b a = true := by
  intro a b
  simp only [spanKeyLe, decide_eq_true_eq]
  omega

theorem spanKeyLe_trans : ∀ a b c : Span,
    spanKeyLe a b = true → spanKeyLe b c = true → spanKeyLe a c = true := by
  intro a b c
  simp only [spanKeyLe, decide_eq_true_eq]
  omega

theorem pickSuffixMatch_nil (ms : List Span) : pickSuffixMatch [] ms = none := by
  simp only [pickSuffixMatch]
  rw [List.find?_eq_none]
  intro sp _
  simp

theorem findFirstSuffix_nil (ss : List (Str → List Span)) :
    findFirstSuffix ss [] = none := by
  induction ss with
  | nil => rfl
  | cons g gs ih => simp only [findFirstSuffix, pickSuffixMatch_nil]; exact ih

theorem stripSufs_nil (ss : List (Str → List Span)) (fuel : Nat) :
    stripSufs ss fuel [] = ([], []) := by
  cases fuel with
  | zero => rfl
  | succ n => simp [stripSufs, findFirstSuffix_nil]

theorem tokenizeChunk_ne_nil (chunk : Str) (rules : TokenizerRules) (base : Nat)
    (hc : chunk ≠ []) : tokenizeChunk chunk rules base ≠ [] := by
  have hce : chunk.isEmpty = false := List.isEmpty_eq_false.2 hc
  cases hg : excGet rules.exceptions chunk with
  | none =>
    have hr := (tokenizeChunkRest_spec chunk rules base hc).2.2
    simpa only [tokenizeChunk, hce, Bool.false_eq_true, if_false, hg] using hr
  | some entry =>
    by_cases hsum : ((entry.map ExcTok.orth).map List.length).sum = chunk.length
    · simp only [tokenizeChunk, hce, Bool.false_eq_true, if_false, hg, if_pos hsum]
      rw [Ne, attachTokens_eq_nil_iff]
      intro hcon
      rw [hcon] at hsum
      simp only [List.map_nil, List.sum_nil] at hsum
      exact hc (List.length_eq_zero.1 hsum.symm)
    · have hr := (tokenizeChunkRest_spec chunk rules base hc).2.2
      simpa only [tokenizeChunk, hce, Bool.false_eq_true, if_false, hg, if_neg hsum] using hr

/-- Claim C1: for every non-empty chunk string and base offset, with a rule
set whose exception entries spell out their keys (as the English table
does), the token list of `tokenize_chunk` tiles the chunk exactly: the
concatenated token texts equal the chunk, the first token starts at the
base offset, and `chainSegB base … (base + chunk.length)` states that each
token's end is the next token's start, each span is as long as its text,
and the last token ends at the base offset plus the chunk's character
count. -/
theorem c1_tiling_invariant (chunk : Str) (rules : TokenizerRules) (base : Nat)
    (hc : chunk ≠ []) (hf : excFaithfulB rules.exceptions = true) :
    ((tokenizeChunk chunk rules base).map (fun t => t.1)).flatten = chunk
    ∧ (tokenizeChunk chunk rules base).head?.map (fun t => t.2.1) = some base
    ∧ chainSegB base (tokenizeChunk chunk rules base) (base + chunk.length) = true := by
  obtain ⟨h1, h2, h3⟩ := tokenizeChunk_spec chunk rules base hc hf
  refine ⟨h1, ?_, h2⟩
  cases htoks : tokenizeChunk chunk rules base with
  | nil => exact absurd htoks h3
  | cons t rest =>
    rw [htoks] at h2
    simp only [chainSegB, Bool.and_eq_true, beq_iff_eq] at h2
    simp [h2.1.1]

/-- Witness for C1: the English rule set on the chunk `"stop."` at base
offset 6. -/
theorem c1_tiling_invariant_witness :
    (S "stop." ≠ [] ∧ excFaithfulB englishRules.exceptions = true)
    ∧ (((tokenizeChunk (S "stop.") englishRules 6).map (fun t => t.1)).flatten = S "stop."
      ∧ (tokenizeChunk (S "stop.") englishRules 6).head?.map (fun t => t.2.1) = some 6
      ∧ chainSegB 6 (tokenizeChunk (S "stop.") englishRules 6)
          (6 + (S "stop.").length) = true) :=
  ⟨⟨by decide, by decide⟩,
   c1_tiling_invariant (S "stop.") englishRules 6 (by decide) (by decide)⟩

/-- Claim C10: the empty chunk yields the empty token list for every rule
set and base offset; the whole-chunk fallback does not fire. -/
theorem c10_empty_chunk (rules : TokenizerRules) (base : Nat) :
    tokenizeChunk [] rules base = [] := rfl

/-- Claim C2: a chunk whose text is an exception key either returns exactly
the entry's sub-tokens with contiguous spans from the base offset (when the
sub-token lengths sum to the chunk length), or — when they do not — the
accumulated sub-tokens are discarded and the result is the general
splitting algorithm (`tokenizeChunkRest`, steps 2-8) on the unchanged
chunk. -/
theorem c2_exception_precedence (chunk : Str) (rules : TokenizerRules) (base : Nat)
    (entry : List ExcTok) (hc : chunk ≠ [])
    (hg : excGet rules.exceptions chunk = some entry) :
    (((entry.map ExcTok.orth).map List.length).sum = chunk.length →
      tokenizeChunk chunk rules base = attachTokens base (entry.map ExcTok.orth)
      ∧ chainSegB base (attachTokens base (entry.map ExcTok.orth))
          (base + chunk.length) = true)
    ∧ (((entry.map ExcTok.orth).map List.length).sum ≠ chunk.length →
      tokenizeChunk chunk rules base = tokenizeChunkRest chunk rules base) := by
  have hce : chunk.isEmpty = false := List.isEmpty_eq_false.2 hc
  constructor
  · intro hsum
    constructor
    · simp only [tokenizeChunk, hce, Bool.false_eq_true, if_false, hg, if_pos hsum]
    · have hch := attachTokens_chain base (entry.map ExcTok.orth)
      rw [hsum] at hch
      exact hch
  · intro hsum
    simp only [tokenizeChunk, hce, Bool.false_eq_true, if_false, hg, if_neg hsum]

/-- Witness for C2: a covering exception entry (`"ab" → ["a","b"]`) and a
non-covering one (`"ab" → ["abc"]`). -/
theorem c2_exception_precedence_witness :
    (S "ab" ≠ []
      ∧ excGet excPairRules.exceptions (S "ab") = some [tk (S "a"), tk (S "b")]
      ∧ tokenizeChunk (S "ab") excPairRules 0
          = attachTokens 0 ([tk (S "a"), tk (S "b")].map ExcTok.orth))
    ∧ (excGet excBadRules.exceptions (S "ab") = some [tk (S "abc")]
      ∧ tokenizeChunk (S "ab") excBadRules 0 = tokenizeChunkRest (S "ab") excBadRules 0) :=
  ⟨⟨by decide, by decide,
    ((c2_exception_precedence (S "ab") excPairRules 0 [tk (S "a"), tk (S "b")]
      (by decide) (by decide)).1 (by decide)).1⟩,
   ⟨by decide,
    (c2_exception_precedence (S "ab") excBadRules 0 [tk (S "abc")]
      (by decide) (by decide)).2 (by decide)⟩⟩

/-- Claim C5: for every non-empty residual the concatenation of the infix
resolver's segments reproduces the input exactly; and when no literal or
regex infix match is found the result is the whole residual as a single
segment. -/
theorem c5_infix_concat (chunk : Str) (litM : Option (Str → List Span))
    (regexInfs : List (Str → List Span)) (hc : chunk ≠ []) :
    (simpleInfixTokenizeChunkInternal chunk litM regexInfs).flatten = chunk
    ∧ (collectSpans chunk litM regexInfs = [] →
        simpleInfixTokenizeChunkInternal chunk litM regexInfs = [chunk]) := by
  constructor
  · rcases simpleInfix_flatten chunk litM regexInfs with h | h
    · exact h
    · exact absurd h hc
  · intro hcs
    have hce : chunk.isEmpty = false := List.isEmpty_eq_false.2 hc
    simp [simpleInfixTokenizeChunkInternal, hce, hcs]

/-- Witness for C5: the residual `"abc"` with no infix rules. -/
theorem c5_infix_concat_witness :
    S "abc" ≠ []
    ∧ (simpleInfixTokenizeChunkInternal (S "abc") none []).flatten = S "abc"
    ∧ simpleInfixTokenizeChunkInternal (S "abc") none [] = [S "abc"] :=
  ⟨by decide, (c5_infix_concat (S "abc") none [] (by decide)).1,
   (c5_infix_concat (S "abc") none [] (by decide)).2 rfl⟩

/-- Claim C3: the orchestrator's output equals the sequential left-to-right
tokenization of the whitespace chunks.  For any permutation `tagged` of the
tagged per-chunk results (modelling arbitrary parallel completion order),
sorting by the chunk-offset tag and flattening yields the sequential
result; and the function itself computes that same sequential result. -/
theorem c3_parallel_order_determinism (sentence : Str) (rules : TokenizerRules)
    (base : Nat) (tagged : List (Nat × List Str))
    (hperm : List.Perm tagged (taggedOf sentence rules base)) :
    ((insSortBy leFst tagged).map (fun t => t.2)).flatten = seqTokenize sentence rules base
    ∧ advancedTokenizeSentenceParallel sentence rules base
        = seqTokenize sentence rules base := by
  have htag_lt : (taggedOf sentence rules base).Pairwise (fun a b => a.1 < b.1) := by
    have hp := chunksInfo_pairwise sentence
    simp only [taggedOf]
    rw [List.pairwise_map]
    exact hp.imp (fun h => h)
  have htag_le : (taggedOf sentence rules base).Pairwise (fun a b => leFst a b = true) :=
    htag_lt.imp (by
      intro a b h
      simp only [leFst, decide_eq_true_eq]
      omega)
  have hproj : ((taggedOf sentence rules base).map (fun t => t.2)).flatten
      = seqTokenize sentence rules base := by
    simp only [taggedOf, seqTokenize, List.map_map]
    rfl
  have hsorted_eq : insSortBy leFst tagged = taggedOf sentence rules base := by
    have hperm2 : List.Perm (insSortBy leFst tagged) (taggedOf sentence rules base) :=
      (insSortBy_perm leFst tagged).trans hperm
    have hpw_le : (insSortBy leFst tagged).Pairwise (fun a b => leFst a b = true) :=
      insSortBy_pairwise leFst leFst_total leFst_trans tagged
    have hnd0 : ((taggedOf sentence rules base).map (fun x => x.1)).Nodup := by
      have h2 : ((taggedOf sentence rules base).map (fun x => x.1)).Pairwise (· ≠ ·) := by
        rw [List.pairwise_map]
        exact htag_lt.imp (fun h => by omega)
      exact h2
    have hnd : ((insSortBy leFst tagged).map (fun x => x.1)).Nodup :=
      ((hperm2.map (fun x => x.1)).nodup_iff).2 hnd0
    have hpw_lt : (insSortBy leFst tagged).Pairwise (fun a b => a.1 < b.1) :=
      pairwise_lt_of_le_nodup _ hpw_le hnd
    haveI : IsAntisymm (Nat × List Str) (fun a b => a.1 < b.1) :=
      ⟨fun a b h1 h2 => absurd h1 (by omega)⟩
    exact List.eq_of_perm_of_sorted hperm2 hpw_lt htag_lt
  refine ⟨by rw [hsorted_eq]; exact hproj, ?_⟩
  simp only [advancedTokenizeSentenceParallel]
  rw [insSortBy_eq_of_pairwise leFst _ htag_le]
  exact hproj

/-- Witness for C3: the line `"a b"` with the empty rule set, handing the
tagged results to the sort in reversed (simulated completion) order. -/
theorem c3_parallel_order_determinism_witness :
    List.Perm [((2 : Nat), [S "b"]), (0, [S "a"])] (taggedOf (S "a b") trivialRules 0)
    ∧ ((insSortBy leFst [((2 : Nat), [S "b"]), (0, [S "a"])]).map (fun t => t.2)).flatten
        = seqTokenize (S "a b") trivialRules 0 := by
  have heq : taggedOf (S "a b") trivialRules 0 = [(0, [S "a"]), (2, [S "b"])] := by decide
  have hp : List.Perm [((2 : Nat), [S "b"]), (0, [S "a"])] (taggedOf (S "a b") trivialRules 0) := by
    rw [heq]
    exact List.Perm.swap _ _ _
  exact ⟨hp, (c3_parallel_order_determinism (S "a b") trivialRules 0 _ hp).1⟩

/-- Claim C4: the infix resolver sorts candidates by (start, length
descending) — stated as sortedness of the sort stage under that key — and
resolves overlaps in one sweep; in particular two overlapping candidates
`[2,5)` and `[4,8)` merge into the single span `[2,8)`, and on an
8-character residual with exactly those two candidate spans the resolver
returns the two segments around the single merged boundary, not three. -/
theorem c4_infix_overlap_merge :
    resolveSpans [(2, 5), (4, 8)] = [(2, 8)]
    ∧ (∀ (chunk : Str) (litm : Str → List Span), chunk.length = 8 →
        litm chunk = [(2, 5), (4, 8)] →
        simpleInfixTokenizeChunkInternal chunk (some litm) []
          = [chunk.take 2, chunk.drop 2])
    ∧ (∀ spans : List Span,
        (insSortBy spanKeyLe spans).Pairwise (fun a b => spanKeyLe a b = true)) := by
  refine ⟨by decide, ?_, fun spans => insSortBy_pairwise spanKeyLe spanKeyLe_total spanKeyLe_trans spans⟩
  intro chunk litm hlen hlitm
  have hce : chunk.isEmpty = false := by
    rw [List.isEmpty_eq_false]
    intro hcon
    rw [hcon] at hlen
    simp at hlen
  have hcs : collectSpans chunk (some litm) [] = [(2, 5), (4, 8)] := by
    simp [collectSpans, hlitm]
  have hres : resolveSpans (collectSpans chunk (some litm) []) = [(2, 8)] := by
    rw [hcs]
    decide
  have htake : chunk.take 8 = chunk := List.take_of_length_le (by omega)
  have htake2 : (chunk.take 2).isEmpty = false := by
    rw [List.isEmpty_eq_false]
    intro hcon
    have := congrArg List.length hcon
    rw [List.length_take] at this
    simp only [List.length_nil] at this
    omega
  simp only [simpleInfixTokenizeChunkInternal, hce, Bool.false_eq_true, if_false, hcs]
  rw [if_neg (by simp)]
  have hres2 : resolveSpans [(2, 5), (4, 8)] = [(2, 8)] := by decide
  rw [hres2]
  have hslice : sliceBySpans chunk [(2, 8)] = [chunk.take 2, chunk.drop 2] := by
    simp [sliceBySpans, sliceStep, htake2, htake, hlen]
  rw [hslice]
  rw [if_neg (by simp)]

/-- Witness for C4 at the concrete residual `"abcdefgh"`. -/
theorem c4_infix_overlap_merge_witness :
    (S "abcdefgh").length = 8
    ∧ simpleInfixTokenizeChunkInternal (S "abcdefgh")
        (some (fun _ => [(2, 5), (4, 8)])) []
        = [(S "abcdefgh").take 2, (S "abcdefgh").drop 2] :=
  ⟨by decide,
   c4_infix_overlap_merge.2.1 (S "abcdefgh") (fun _ => [(2, 5), (4, 8)]) (by decide) rfl⟩

/-- Claim C6: the suffix-stripping loop records suffixes in discovery order
(outermost first) and re-attaches them after the infix segments in reverse
discovery order, so the remaining slice followed by the reversed suffix
list reconstructs the slice in left-to-right reading order; each selected
match ends exactly at the current slice's end with non-empty text and is
one of the matches found by scanning a suffix pattern over the whole
slice; and the general path's token texts end with the reversed suffix
list, after the prefix and infix tokens. -/
theorem c6_suffix_reattachment (ss : List (Str → List Span)) (s : Str) :
    (∀ sp, findFirstSuffix ss s = some sp →
      sp.2 = s.length ∧ (s.take sp.2).drop sp.1 ≠ [] ∧ ∃ g ∈ ss, sp ∈ g s)
    ∧ (∀ fuel, s.length ≤ fuel →
        (stripSufs ss fuel s).1 ++ ((stripSufs ss fuel s).2).reverse.flatten = s)
    ∧ (∀ (rules : TokenizerRules) (chunk : Str) (base : Nat),
        rules.suffixes = ss →
        fullSpanMatch rules.tokenMatch chunk = false →
        fullSpanMatch rules.urlMatch chunk = false →
        ∃ pre, (tokenizeChunkRest chunk rules base).map (fun t => t.1)
          = pre ++ ((stripSufs ss
              (stripPrefs rules.prefixes chunk.length chunk base).2.1.length
              (stripPrefs rules.prefixes chunk.length chunk base).2.1).2).reverse) := by
  refine ⟨fun sp h => findFirstSuffix_some ss s sp h,
    fun fuel hle => stripSufs_spec ss fuel s hle, ?_⟩
  intro rules chunk base hss htm hurl
  subst hss
  simp only [tokenizeChunkRest, htm, hurl, Bool.false_eq_true, if_false]
  generalize stripPrefs rules.prefixes chunk.length chunk base = P
  obtain ⟨ptoks, s1, pos1⟩ := P
  simp only
  generalize hQ : stripSufs rules.suffixes s1.length s1 = Q
  obtain ⟨s2, sufs⟩ := Q
  simp only
  by_cases hs1 : s1.isEmpty
  · have hs1nil : s1 = [] := List.isEmpty_iff.1 hs1
    have hsufs : sufs = [] := by
      have h0 : stripSufs rules.suffixes s1.length s1 = ([], []) := by
        rw [hs1nil]
        exact stripSufs_nil rules.suffixes [].length
      rw [hQ] at h0
      exact (Prod.mk.injEq _ _ _ _ ▸ h0).2
    subst hsufs
    simp only [hs1, if_true, List.isEmpty_nil, List.map_nil, List.sum_nil,
      List.reverse_nil, attachTokens, List.append_nil, List.nil_append]
    by_cases hall : (ptoks : List Token).isEmpty
    · rw [List.isEmpty_iff.1 hall]
      by_cases hchunk : chunk.isEmpty
      · exact ⟨[], by simp [hchunk]⟩
      · exact ⟨[chunk], by simp [hchunk, List.isEmpty_eq_false.2, attachTokens]⟩
    · rw [eq_false_of_ne_true hall]
      simp only [Bool.false_and, Bool.false_eq_true, if_false]
      exact ⟨ptoks.map (fun t => t.1), by simp⟩
  · simp only [hs1, Bool.false_eq_true, if_false]
    by_cases hall : (ptoks
        ++ attachTokens pos1 (if (s2 : Str).isEmpty then []
            else simpleInfixTokenizeChunkInternal s2 rules.literalInfixMatcher rules.regexInfixes)
        ++ attachTokens (pos1 + ((if (s2 : Str).isEmpty then []
            else simpleInfixTokenizeChunkInternal s2 rules.literalInfixMatcher
              rules.regexInfixes).map List.length).sum) sufs.reverse).isEmpty
    · have hnil := List.isEmpty_iff.1 hall
      have hstoks := (List.append_eq_nil.1 hnil).2
      have hsufs : sufs.reverse = [] := (attachTokens_eq_nil_iff _ _).1 hstoks
      rw [hall]
      simp only [Bool.true_and]
      by_cases hchunk : chunk.isEmpty
      · simp only [hchunk, Bool.not_true, Bool.false_eq_true, if_false]
        exact ⟨[], by rw [hnil, hsufs]; simp⟩
      · simp only [hchunk, Bool.not_false, if_true]
        exact ⟨[chunk], by rw [hsufs]; simp⟩
    · rw [eq_false_of_ne_true hall]
      simp only [Bool.false_and, Bool.false_eq_true, if_false]
      refine ⟨ptoks.map (fun t => t.1)
        ++ (if (s2 : Str).isEmpty then []
            else simpleInfixTokenizeChunkInternal s2 rules.literalInfixMatcher
              rules.regexInfixes), ?_⟩
      simp [List.map_append, attachTokens_texts, List.append_assoc]

/-- Witness for C6: the slice `"ab.!"` against the literal suffix rules
`"."` then `"!"`: the end-anchored match `(3,4)` is selected first, the
loop leaves `"ab"` with discovery-ordered suffixes `["!", "."]`, and the
general path emits `ab . !` with the reversed suffixes last. -/
theorem c6_suffix_reattachment_witness :
    (findFirstSuffix [litIter (S "."), litIter (S "!")] (S "ab.!") = some (3, 4)
      ∧ ((3 : Nat), (4 : Nat)).2 = (S "ab.!").length
      ∧ ((S "ab.!").take 4).drop 3 ≠ []
      ∧ ∃ g ∈ [litIter (S "."), litIter (S "!")], ((3 : Nat), (4 : Nat)) ∈ g (S "ab.!"))
    ∧ (stripSufs [litIter (S "."), litIter (S "!")] (S "ab.!").length (S "ab.!")
        = (S "ab", [S "!", S "."])
      ∧ (stripSufs [litIter (S "."), litIter (S "!")] (S "ab.!").length (S "ab.!")).1
          ++ ((stripSufs [litIter (S "."), litIter (S "!")] (S "ab.!").length
              (S "ab.!")).2).reverse.flatten = S "ab.!")
    ∧ ∃ pre, (tokenizeChunkRest (S "ab.!") sufTestRules 0).map (fun t => t.1)
        = pre ++ ((stripSufs [litIter (S "."), litIter (S "!")]
            (stripPrefs sufTestRules.prefixes (S "ab.!").length (S "ab.!") 0).2.1.length
            (stripPrefs sufTestRules.prefixes (S "ab.!").length (S "ab.!") 0).2.1).2).reverse := by
  have hfind : findFirstSuffix [litIter (S "."), litIter (S "!")] (S "ab.!") = some (3, 4) := by
    decide
  obtain ⟨hp1, hp2, hp3⟩ := (c6_suffix_reattachment [litIter (S "."), litIter (S "!")] (S "ab.!"))
  have h1 := hp1 (3, 4) hfind
  refine ⟨⟨hfind, h1.1, h1.2.1, h1.2.2⟩, ⟨by decide, hp2 (S "ab.!").length (le_refl _)⟩, ?_⟩
  exact hp3 sufTestRules (S "ab.!") 0 rfl rfl rfl

/-- Claim C8: on a non-empty chunk with no applicable exception entry, no
full-span whole-token or URL match, and no prefix, suffix or infix rule
firing, `tokenize_chunk` returns exactly one token covering the whole
chunk; and it returns at least one token for every non-empty chunk. -/
theorem c8_no_rule_fallback (chunk : Str) (rules : TokenizerRules) (base : Nat)
    (hc : chunk ≠ []) :
    (excGet rules.exceptions chunk = none →
      fullSpanMatch rules.tokenMatch chunk = false →
      fullSpanMatch rules.urlMatch chunk = false →
      findFirstPref rules.prefixes chunk = none →
      findFirstSuffix rules.suffixes chunk = none →
      collectSpans chunk rules.literalInfixMatcher rules.regexInfixes = [] →
      tokenizeChunk chunk rules base = [(chunk, base, base + chunk.length)])
    ∧ tokenizeChunk chunk rules base ≠ [] := by
  refine ⟨?_, tokenizeChunk_ne_nil chunk rules base hc⟩
  intro hg htm hurl hpf hsf hcs
  have hce : chunk.isEmpty = false := List.isEmpty_eq_false.2 hc
  obtain ⟨n, hn⟩ : ∃ n, chunk.length = n + 1 := by
    have := List.length_pos.2 hc
    exact ⟨chunk.length - 1, by omega⟩
  have hpres : stripPrefs rules.prefixes chunk.length chunk base = ([], chunk, base) := by
    rw [hn]
    simp [stripPrefs, hce, hpf]
  have hsufd : stripSufs rules.suffixes chunk.length chunk = (chunk, []) := by
    rw [hn]
    simp [stripSufs, hsf]
  have hinf : simpleInfixTokenizeChunkInternal chunk rules.literalInfixMatcher
      rules.regexInfixes = [chunk] := by
    simp [simpleInfixTokenizeChunkInternal, hce, hcs]
  simp only [tokenizeChunk, hce, Bool.false_eq_true, if_false, hg,
    tokenizeChunkRest, htm, hurl, hpres, hce, hsufd, hinf, attachTokens,
    List.reverse_nil, List.append_nil, List.nil_append, List.map_cons,
    List.map_nil, List.sum_cons, List.sum_nil]
  simp [hce]

/-- Witness for C8: the chunk `"x"` under the empty rule set. -/
theorem c8_no_rule_fallback_witness :
    S "x" ≠ []
    ∧ tokenizeChunk (S "x") trivialRules 0 = [(S "x", 0, 0 + (S "x").length)]
    ∧ tokenizeChunk (S "x") trivialRules 0 ≠ [] :=
  ⟨by decide,
   (c8_no_rule_fallback (S "x") trivialRules 0 (by decide)).1 rfl rfl rfl rfl rfl rfl,
   (c8_no_rule_fallback (S "x") trivialRules 0 (by decide)).2⟩

set_option maxHeartbeats 16000000 in
/-- Claim C7: tokenizing the line `"don't stop."` with the embedded English
rule set at base offset 0 yields the token texts `do`, `n't`, `stop`, `.`
in that order, and the per-chunk `tokenize_chunk` calls behind the
orchestrator compute exactly the offset triples (0,2), (2,5), (6,10),
(10,11); the orchestrator itself returns only the texts of those triples. -/
theorem c7_end_to_end_example :
    advancedTokenizeSentenceParallel (S "don't stop.") englishRules 0
      = [S "do", S "n't", S "stop", S "."]
    ∧ lineTokens (S "don't stop.") englishRules 0
      = [(S "do", 0, 2), (S "n't", 2, 5), (S "stop", 6, 10), (S ".", 10, 11)] := by
  constructor
  · decide
  · decide

/-- Counterexample to claim C9 as stated: on the line `"a b"` with the
English rules the first token ends at offset 1 while the second starts at
offset 2 (the whitespace between chunks is not covered), so token `i`'s end
does not equal token `i+1`'s start across a chunk boundary. -/
theorem c9_offset_monotonicity_cx :
    ∃ t1 t2 : Token, (lineTokens (S "a b") englishRules 0)[0]? = some t1
      ∧ (lineTokens (S "a b") englishRules 0)[1]? = some t2
      ∧ t1.2.2 = 1 ∧ t2.2.1 = 2 ∧ t1.2.2 ≠ t2.2.1 := by
  refine ⟨(S "a", 0, 1), (S "b", 2, 3), ?_, ?_, rfl, rfl, by decide⟩
  · decide
  · decide

/-- Claim C9 as amended: within each chunk the emitted tokens chain
contiguously from the line's base offset plus the chunk's offset (token
`i`'s end equals token `i+1`'s start inside a chunk), and when the line
starts with a non-whitespace character the first chunk's offset is 0, so
the first token starts at the line's base offset. -/
theorem c9_offset_monotonicity_amended (rules : TokenizerRules) (sentence : Str)
    (base : Nat) (hf : excFaithfulB rules.exceptions = true) :
    (∀ oc ∈ chunksInfo sentence,
      chainTokB (base + oc.1) (tokenizeChunk oc.2 rules (base + oc.1)) = true)
    ∧ (∀ ch, sentence.head? = some ch → isRustWs ch = false →
        (chunksInfo sentence).head?.map (fun oc => oc.1) = some 0) := by
  constructor
  · intro oc hoc
    by_cases hc : oc.2 = []
    · rw [hc]
      rfl
    · exact chainSegB_imp_chainTokB _ _ _
        (tokenizeChunk_spec oc.2 rules (base + oc.1) hc hf).2.1
  · intro ch h1 h2
    exact chunksInfo_head_zero sentence ch h1 h2

/-- Witness for the amended C9: the line `"a b"` with the English rules;
the first chunk `(0, "a")` chains from offset 0 and the line starts
non-whitespace so the first chunk offset is 0. -/
theorem c9_offset_monotonicity_amended_witness :
    (excFaithfulB englishRules.exceptions = true
      ∧ ((0 : Nat), S "a") ∈ chunksInfo (S "a b")
      ∧ (S "a b").head? = some 'a' ∧ isRustWs 'a' = false)
    ∧ chainTokB (0 + 0) (tokenizeChunk (S "a") englishRules (0 + 0)) = true
    ∧ (chunksInfo (S "a b")).head?.map (fun oc => oc.1) = some 0 :=
  ⟨⟨by decide, by decide, by decide, by decide⟩,
   (c9_offset_monotonicity_amended englishRules (S "a b") 0 (by decide)).1
     (0, S "a") (by decide),
   (c9_offset_monotonicity_amended englishRules (S "a b") 0 (by decide)).2
     'a' (by decide) (by decide)⟩
